import Mathlib

/-!
The windi-transparency-anchor service: hashing, snapshot collection and anchor lifecycle.

A shallow embedding of `src/services/hash.js`, `src/services/snapshotService.js`,
`src/services/anchorService.js` and `src/services/publishService.js`.

* JavaScript values are the inductive type `JSValue` (the JSON-shaped fragment:
  `undefined`, `null`, booleans, integer-valued numbers, strings, arrays, plain
  objects).  An object is the list of its own enumerable properties in
  `Object.keys` order.
* A function that may return `undefined` returns `Option`; a function that may
  throw returns `Except String`, the string being `err.message`.
* Strings are Lean strings (well-formed Unicode); the default JavaScript string
  order compares UTF-16 code units, which is what `strLt` does.
-/

namespace TransparencyAnchor

/-! ## JavaScript values -/

/-- The fragment of JavaScript values that reaches the hashing code. -/
inductive JSValue where
  | undefined
  | null
  | bool (b : Bool)
  | num (n : Int)
  | str (s : String)
  | arr (xs : List JSValue)
  | obj (kvs : List (String × JSValue))
  deriving Inhabited

/-! ## Strings: UTF-16 order, JSON quoting -/

/-- UTF-16 code units of one Unicode scalar value. -/
def utf16Units (c : Char) : List Nat :=
  if c.toNat < 0x10000 then [c.toNat]
  else [0xD800 + (c.toNat - 0x10000) / 1024, 0xDC00 + (c.toNat - 0x10000) % 1024]

/-- UTF-16 code units of a list of characters. -/
def utf16List : List Char → List Nat
  | [] => []
  | c :: cs => utf16Units c ++ utf16List cs

/-- The sequence of UTF-16 code units of a string, as JavaScript stores it. -/
def toUTF16 (s : String) : List Nat := utf16List s.data

/-- Lexicographic "less than" on code-unit sequences (ECMAScript IsLessThan on strings). -/
def unitsLt : List Nat → List Nat → Bool
  | _, [] => false
  | [], _ :: _ => true
  | a :: as, b :: bs => decide (a < b) || (a == b && unitsLt as bs)

/-- JavaScript `a < b` on strings. -/
def strLt (a b : String) : Bool := unitsLt (toUTF16 a) (toUTF16 b)

/-- Lower-case hexadecimal digit. -/
def hexDigit (n : Nat) : Char := "0123456789abcdef".data.getD n '0'

/-- One character as `JSON.stringify` writes it inside a string literal. -/
def jsonEscapeChar (c : Char) : List Char :=
  if c = '\"' then ['\\', '\"']
  else if c = '\\' then ['\\', '\\']
  else if c.toNat = 8 then ['\\', 'b']
  else if c.toNat = 9 then ['\\', 't']
  else if c.toNat = 10 then ['\\', 'n']
  else if c.toNat = 12 then ['\\', 'f']
  else if c.toNat = 13 then ['\\', 'r']
  else if c.toNat < 32 then ['\\', 'u', '0', '0', hexDigit (c.toNat / 16), hexDigit (c.toNat % 16)]
  else [c]

/-- The escaped body of a JSON string literal. -/
def jsonEscape : List Char → List Char
  | [] => []
  | c :: cs => jsonEscapeChar c ++ jsonEscape cs

/-- The text `JSON.stringify(s)` for a string `s`. -/
def jsonQuote (s : String) : String := "\"" ++ String.mk (jsonEscape s.data) ++ "\""

/-- The text `JSON.stringify(n)` and `String(n)` for an integer-valued number. -/
def numberToString (n : Int) : String := toString n

/-- The call `xs.join(sep)` for an array of strings. -/
def joinStrings (sep : String) : List String → String
  | [] => ""
  | [s] => s
  | s :: t :: rest => s ++ sep ++ joinStrings sep (t :: rest)

/-- Stable insertion of `a` into a list sorted by `le`. -/
def insertSorted {α : Type} (le : α → α → Bool) (a : α) : List α → List α
  | [] => [a]
  | b :: l => if le a b then a :: b :: l else b :: insertSorted le a l

/-- Stable sort by `le` (the sorted permutation ECMAScript requires of `sort`). -/
def sortBy {α : Type} (le : α → α → Bool) : List α → List α
  | [] => []
  | b :: l => insertSorted le b (sortBy le l)

/-- The call `xs.sort()` for an array of strings: ascending by UTF-16 code units, stable. -/
def sortStrings (xs : List String) : List String := sortBy (fun a b => !strLt b a) xs

/-! ## Generic conversions on values -/

mutual
/-- ECMAScript `ToString` on a value. -/
def jsToString : JSValue → String
  | .undefined => "undefined"
  | .null => "null"
  | .bool b => if b then "true" else "false"
  | .num n => numberToString n
  | .str s => s
  | .arr xs => joinStrings "," (joinParts xs)
  | .obj _ => "[object Object]"
/-- The pieces `Array.prototype.join` concatenates: `""` for `null` and `undefined`. -/
def joinParts : List JSValue → List String
  | [] => []
  | .undefined :: xs => "" :: joinParts xs
  | .null :: xs => "" :: joinParts xs
  | x :: xs => jsToString x :: joinParts xs
end

/-- The call `xs.join(sep)` on an array of arbitrary values. -/
def arrayJoin (sep : String) (xs : List JSValue) : String := joinStrings sep (joinParts xs)

/-- ECMAScript `SortCompare` with no comparator: `undefined` last, the rest by `ToString`. -/
def sortCompare (x y : JSValue) : Int :=
  match x, y with
  | .undefined, .undefined => 0
  | .undefined, _ => 1
  | _, .undefined => -1
  | x, y =>
    if strLt (jsToString x) (jsToString y) then -1
    else if strLt (jsToString y) (jsToString x) then 1
    else 0

/-- The call `xs.sort()` with the default comparator. -/
def arraySort (xs : List JSValue) : List JSValue := sortBy (fun a b => decide (sortCompare a b ≤ 0)) xs

/-- The access `obj[key]` on the property list of a plain object. -/
def getProp : List (String × JSValue) → String → JSValue
  | [], _ => .undefined
  | (k, v) :: rest, key => if k = key then v else getProp rest key

/-- The own enumerable keys `Object.keys(obj)`. -/
def objectKeys (kvs : List (String × JSValue)) : List String := kvs.map Prod.fst

/-- JavaScript truthiness. -/
def truthy : JSValue → Bool
  | .undefined => false
  | .null => false
  | .bool b => b
  | .num n => n != 0
  | .str s => s != ""
  | .arr _ => true
  | .obj _ => true

/-! ## `src/services/hash.js` -/

/-- Value of `key` in a list of already rendered properties. -/
def renderedProp : List (String × Option String) → String → Option String
  | [], _ => none
  | (k, v) :: rest, key => if k = key then v else renderedProp rest key

mutual
/-- The function `stableStringify(obj)`; `none` is the JavaScript `undefined`.

The object branch sorts `Object.keys(obj)` and, for each key in that order,
takes `stableStringify(obj[key])`; the recursive calls are made once per
property (`stringifyProps`) and looked up by key, which is the same value
(`renderedProp_stringifyProps`). -/
def stableStringify : JSValue → Option String
  | .null => some "null"
  | .undefined => none
  | .bool b => some (if b then "true" else "false")
  | .num n => some (numberToString n)
  | .str s => some (jsonQuote s)
  | .arr xs => some ("[" ++ joinStrings "," (stringifyElems xs).reduceOption ++ "]")
  | .obj kvs =>
    let keys := sortStrings (objectKeys kvs)
    let pairs := keys.filterMap (fun key =>
      (renderedProp (stringifyProps kvs) key).map (fun val => jsonQuote key ++ ":" ++ val))
    some ("\x7b" ++ joinStrings "," pairs ++ "\x7d")
/-- The array `obj.map(v => stableStringify(v))`. -/
def stringifyElems : List JSValue → List (Option String)
  | [] => []
  | x :: xs => stableStringify x :: stringifyElems xs
/-- The value `stableStringify(obj[key])` for every property of an object. -/
def stringifyProps : List (String × JSValue) → List (String × Option String)
  | [] => []
  | (k, v) :: rest => (k, stableStringify v) :: stringifyProps rest
end

/-- The array `pairs` that the object branch of `stableStringify` builds, written as in the
source: for each key of `Object.keys(obj).sort()`, `val = stableStringify(obj[key])`, pushed
unless `val` is `undefined`. -/
def stablePairs (kvs : List (String × JSValue)) : List String :=
  (sortStrings (objectKeys kvs)).filterMap (fun key =>
    (stableStringify (getProp kvs key)).map (fun val => jsonQuote key ++ ":" ++ val))

/-- The test `v === undefined`. -/
def JSValue.isUndefined : JSValue → Bool
  | .undefined => true
  | _ => false

/-! ### SHA-256 (the `crypto` primitive used by `sha256`) -/

namespace Sha256

/-- Round constants of SHA-256 (FIPS 180-4, section 4.2.2). -/
def K : List Nat := [
  0x428a2f98, 0x71374491, 0xb5c0fbcf, 0xe9b5dba5, 0x3956c25b, 0x59f111f1, 0x923f82a4, 0xab1c5ed5,
  0xd807aa98, 0x12835b01, 0x243185be, 0x550c7dc3, 0x72be5d74, 0x80deb1fe, 0x9bdc06a7, 0xc19bf174,
  0xe49b69c1, 0xefbe4786, 0x0fc19dc6, 0x240ca1cc, 0x2de92c6f, 0x4a7484aa, 0x5cb0a9dc, 0x76f988da,
  0x983e5152, 0xa831c66d, 0xb00327c8, 0xbf597fc7, 0xc6e00bf3, 0xd5a79147, 0x06ca6351, 0x14292967,
  0x27b70a85, 0x2e1b2138, 0x4d2c6dfc, 0x53380d13, 0x650a7354, 0x766a0abb, 0x81c2c92e, 0x92722c85,
  0xa2bfe8a1, 0xa81a664b, 0xc24b8b70, 0xc76c51a3, 0xd192e819, 0xd6990624, 0xf40e3585, 0x106aa070,
  0x19a4c116, 0x1e376c08, 0x2748774c, 0x34b0bcb5, 0x391c0cb3, 0x4ed8aa4a, 0x5b9cca4f, 0x682e6ff3,
  0x748f82ee, 0x78a5636f, 0x84c87814, 0x8cc70208, 0x90befffa, 0xa4506ceb, 0xbef9a3f7, 0xc67178f2]

/-- Initial hash value of SHA-256 (FIPS 180-4, section 5.3.3). -/
def H0 : List Nat :=
  [0x6a09e667, 0xbb67ae85, 0x3c6ef372, 0xa54ff53a, 0x510e527f, 0x9b05688c, 0x1f83d9ab, 0x5be0cd19]

/-- Rotate a 32-bit word right by `n` bits. -/
def rotr (x n : Nat) : Nat := ((x >>> n) ||| (x <<< (32 - n))) % 2 ^ 32

/-- Addition modulo `2^32`. -/
def add32 (a b : Nat) : Nat := (a + b) % 2 ^ 32

/-- Bitwise complement of a 32-bit word. -/
def not32 (a : Nat) : Nat := a ^^^ 0xffffffff

/-- UTF-8 bytes of one Unicode scalar value. -/
def utf8Char (c : Char) : List Nat :=
  if c.toNat < 0x80 then [c.toNat]
  else if c.toNat < 0x800 then [0xC0 + c.toNat / 64, 0x80 + c.toNat % 64]
  else if c.toNat < 0x10000 then
    [0xE0 + c.toNat / 4096, 0x80 + (c.toNat / 64) % 64, 0x80 + c.toNat % 64]
  else
    [0xF0 + c.toNat / 262144, 0x80 + (c.toNat / 4096) % 64, 0x80 + (c.toNat / 64) % 64,
      0x80 + c.toNat % 64]

/-- UTF-8 bytes of a string (`update(str, "utf8")`). -/
def utf8 (s : String) : List Nat := s.data.flatMap utf8Char

/-- Message padding: a `1` bit, zero bits, and the bit length as a 64-bit big-endian number. -/
def pad (m : List Nat) : List Nat :=
  m ++ [0x80] ++ List.replicate ((64 - (m.length + 9) % 64) % 64) 0 ++
    (List.range 8).map (fun i => ((8 * m.length) >>> (8 * (7 - i))) % 256)

/-- Big-endian number held by a list of bytes. -/
def word (bs : List Nat) : Nat := bs.foldl (fun acc b => acc * 256 + b) 0

/-- The sixteen 32-bit words of a 64-byte block. -/
def words (block : List Nat) : List Nat :=
  (List.range 16).map (fun i => word ((block.drop (4 * i)).take 4))

/-- Extend the message schedule by `n` words; `w` holds the schedule latest word first. -/
def extend : Nat → List Nat → List Nat
  | 0, w => w
  | n + 1, w =>
    extend n
      (add32 (add32 (add32 (w.getD 15 0)
          (rotr (w.getD 14 0) 7 ^^^ rotr (w.getD 14 0) 18 ^^^ ((w.getD 14 0) >>> 3)))
          (w.getD 6 0))
          (rotr (w.getD 1 0) 17 ^^^ rotr (w.getD 1 0) 19 ^^^ ((w.getD 1 0) >>> 10)) :: w)

/-- The 64-word message schedule of a block. -/
def schedule (block : List Nat) : List Nat := (extend 48 (words block).reverse).reverse

/-- One round of the compression function on the working variables `a..h`. -/
def round (st : List Nat) (kw : Nat × Nat) : List Nat :=
  match st with
  | [a, b, c, d, e, f, g, h] =>
    let t1 := add32 (add32 (add32 (add32 h (rotr e 6 ^^^ rotr e 11 ^^^ rotr e 25))
      ((e &&& f) ^^^ (not32 e &&& g))) kw.1) kw.2
    let t2 := add32 (rotr a 2 ^^^ rotr a 13 ^^^ rotr a 22) ((a &&& b) ^^^ (a &&& c) ^^^ (b &&& c))
    [add32 t1 t2, a, b, c, add32 d t1, e, f, g]
  | _ => st

/-- Compression of one block into the running hash value. -/
def compress (h : List Nat) (block : List Nat) : List Nat :=
  List.zipWith add32 h ((K.zip (schedule block)).foldl round h)

/-- The 64-byte blocks of a padded message. -/
def blocks (bs : List Nat) : List (List Nat) :=
  (List.range (bs.length / 64)).map (fun i => (bs.drop (64 * i)).take 64)

/-- Eight lower-case hexadecimal digits of a 32-bit word. -/
def hex32 (w : Nat) : List Char :=
  (List.range 8).map (fun i => hexDigit ((w >>> (4 * (7 - i))) % 16))

end Sha256

/-- Modelled from the spec: `crypto.createHash("sha256").update(str, "utf8").digest("hex")`
is Node's built-in `crypto` module, which is not among the sources; per the specification it is
SHA-256 (FIPS 180-4) over the UTF-8 bytes of the text, rendered as 64 lower-case hex characters. -/
def sha256Hex (s : String) : String :=
  String.mk (((Sha256.blocks (Sha256.pad (Sha256.utf8 s))).foldl Sha256.compress Sha256.H0).flatMap
    Sha256.hex32)

/-- The function `sha256(data)`: a string is hashed directly, anything else through
`stableStringify`; `update(undefined, ...)` throws. -/
def sha256 (data : JSValue) : Except String String :=
  let str := match data with
    | .str s => some s
    | other => stableStringify other
  match str with
  | some s => .ok (sha256Hex s)
  | none => .error "The \"data\" argument must be of type string or an instance of Buffer, TypedArray, or DataView. Received undefined"

/-- The function `computeRootHash(hashes)`; `none` is an absent (`null`/`undefined`) argument. -/
def computeRootHash (hashes : Option (List JSValue)) : Except String String :=
  match hashes with
  | none => sha256 (.str "EMPTY")
  | some hs =>
    if hs.length = 0 then sha256 (.str "EMPTY")
    else
      let sorted := arraySort hs
      sha256 (.str (arrayJoin "" sorted))

/-! #### `computeRootHash` with arrays as mutable heap cells

`Array.prototype.sort` sorts in place.  To state what happens to the caller's array, arrays are
cells of a heap addressed by position. -/

/-- Heap of arrays. -/
abbrev ArrayHeap := List (List JSValue)

/-- Content of the array at reference `r`. -/
def heapRead (h : ArrayHeap) (r : Nat) : List JSValue := h.getD r []

/-- The spread `[...xs]`: allocates a fresh array with the elements of `xs`. -/
def heapSpread (h : ArrayHeap) (r : Nat) : ArrayHeap × Nat := (h ++ [heapRead h r], h.length)

/-- The call `xs.sort()`: sorts the array at `r` in place and returns the same reference. -/
def heapSort (h : ArrayHeap) (r : Nat) : ArrayHeap × Nat :=
  (h.set r (arraySort (heapRead h r)), r)

/-- The function `computeRootHash(hashes)` run on a heap: the final heap and the result. -/
def computeRootHashOnHeap (h : ArrayHeap) (hashes : Option Nat) : ArrayHeap × Except String String :=
  match hashes with
  | none => (h, sha256 (.str "EMPTY"))
  | some r =>
    if (heapRead h r).length = 0 then (h, sha256 (.str "EMPTY"))
    else
      let copy := heapSpread h r
      let sorted := heapSort copy.1 copy.2
      (sorted.1, sha256 (.str (arrayJoin "" (heapRead sorted.1 sorted.2))))

/-! ## `src/services/snapshotService.js` -/

/-- What the code reads from a `fetch` response. -/
structure Response where
  /-- The flag `response.ok`. -/
  ok : Bool
  /-- The number `response.status`. -/
  status : Nat
  /-- Outcome of `await response.json()`: the parsed body, or the error it throws. -/
  json : Except String JSValue

/-- Everything `createSnapshot` takes from outside: the outcome of each request (`.error` is a
rejected `fetch`), the collation `String.prototype.localeCompare` of the host, and the clock. -/
structure Upstream where
  /-- Outcome of `fetch(REGISTRY_URL + "/directory?limit=10000")`. -/
  directory : Except String Response
  /-- Outcome of `fetch(FORENSICS_URL + "/chain-heads")`. -/
  chainHeads : Except String Response
  /-- Outcome of `fetch(FORENSICS_URL + "/health")`, if it is requested. -/
  health : Except String Response
  /-- Host collation: `a.localeCompare(b)`. -/
  localeCompare : String → String → Int
  /-- Reading of `new Date().toISOString()` in `getIssuerRegistrySnapshot`. -/
  registryClock : String
  /-- Reading of `new Date().toISOString()` in `getWcafHeadsSnapshot`. -/
  wcafClock : String
  /-- Reading of `new Date().toISOString()` in `createSnapshot`. -/
  snapshotClock : String

/-- Result object of the two per-source collectors. -/
structure SourceSnapshot where
  hash : String
  count : Nat
  snapshot_at : Option String := none
  error : Option String := none
  note : Option String := none
  deriving DecidableEq, Repr

/-- Result object of `createSnapshot`. -/
structure Snapshot where
  issuer_registry_root_hash : String
  issuer_count : Nat
  wcaf_heads_root_hash : String
  wcaf_document_count : Nat
  combined_root_hash : String
  snapshot_at : String
  deriving DecidableEq, Repr

/-- Property read `v.key` for the keys the collectors read (none of them a built-in property):
throws on `null` and `undefined`, is `undefined` on primitives and arrays. -/
def getMember (v : JSValue) (key : String) : Except String JSValue :=
  match v with
  | .undefined => .error ("Cannot read properties of undefined (reading " ++ key ++ ")")
  | .null => .error ("Cannot read properties of null (reading " ++ key ++ ")")
  | .obj kvs => .ok (getProp kvs key)
  | _ => .ok .undefined

/-- The expression `a || b`. -/
def orElse (a b : JSValue) : JSValue := if truthy a then a else b

/-- The call `xs.map(f)`: a `TypeError` unless `xs` is an array. -/
def arrayMap (xs : JSValue) (f : JSValue → Except String JSValue) : Except String (List JSValue) :=
  match xs with
  | .arr l => l.mapM f
  | _ => .error "map is not a function"

/-- The number `xs.length` of an array. -/
def arrayLength (xs : JSValue) : Nat :=
  match xs with
  | .arr l => l.length
  | _ => 0

/-- Stable insertion under a comparator that may throw. -/
def insertWith {α : Type} (cmp : α → α → Except String Int) (a : α) :
    List α → Except String (List α)
  | [] => .ok [a]
  | b :: l =>
    match cmp a b with
    | .error e => .error e
    | .ok c =>
      if c ≤ 0 then .ok (a :: b :: l)
      else
        match insertWith cmp a l with
        | .error e => .error e
        | .ok r => .ok (b :: r)

/-- The call `xs.sort(cmp)`: stable; an exception of the comparator propagates. -/
def sortWith {α : Type} (cmp : α → α → Except String Int) : List α → Except String (List α)
  | [] => .ok []
  | b :: l =>
    match sortWith cmp l with
    | .error e => .error e
    | .ok s => insertWith cmp b s

/-- The comparator `(a, b) => a[key].localeCompare(b[key])`. -/
def compareByKey (localeCompare : String → String → Int) (key : String) (a b : JSValue) :
    Except String Int :=
  match getMember a key with
  | .error e => .error e
  | .ok x =>
    match x with
    | .str s =>
      match getMember b key with
      | .error e => .error e
      | .ok y => .ok (localeCompare s (jsToString y))
    | .undefined => .error ("Cannot read properties of undefined (reading localeCompare)")
    | .null => .error ("Cannot read properties of null (reading localeCompare)")
    | _ => .error "localeCompare is not a function"

/-- A string-or-undefined result as a value. -/
def ofOptionString : Option String → JSValue
  | some s => .str s
  | none => .undefined

/-- The projection `i => ({issuer_id, current_status, status_updated_at})`. -/
def projectIssuer (i : JSValue) : Except String JSValue := do
  let issuer_id ← getMember i "issuer_id"
  let current_status ← getMember i "current_status"
  let status_updated_at ← getMember i "status_updated_at"
  pure (.obj [("issuer_id", issuer_id), ("current_status", current_status),
    ("status_updated_at", status_updated_at)])

/-- Body of the `try` block of `getIssuerRegistrySnapshot`. -/
def registryTry (up : Upstream) : Except String SourceSnapshot := do
  let response ← up.directory
  if !response.ok then
    throw ("Registry fetch failed: " ++ toString response.status)
  else
    let data ← response.json
    let issuers := orElse (← getMember data "issuers") (.arr [])
    let projected ← arrayMap issuers projectIssuer
    let snapshot ← sortWith (compareByKey up.localeCompare "issuer_id") projected
    let hash ← sha256 (ofOptionString (stableStringify (.arr snapshot)))
    pure { hash := hash, count := arrayLength issuers, snapshot_at := some up.registryClock }

/-- The function `getIssuerRegistrySnapshot()`. -/
def getIssuerRegistrySnapshot (up : Upstream) : Except String SourceSnapshot :=
  match registryTry up with
  | .ok r => .ok r
  | .error message => do
    let hash ← sha256 (.str "REGISTRY_UNAVAILABLE")
    pure { hash := hash, count := 0, error := some message }

/-- The projection `h => ({document_id: h.document_id, head_hash: h.head_event_hash})`. -/
def projectHead (h : JSValue) : Except String JSValue := do
  let document_id ← getMember h "document_id"
  let head_hash ← getMember h "head_event_hash"
  pure (.obj [("document_id", document_id), ("head_hash", head_hash)])

/-- Body of the `try` block of `getWcafHeadsSnapshot`. -/
def wcafTry (up : Upstream) : Except String SourceSnapshot := do
  let response ← up.chainHeads
  if !response.ok then
    let healthResp ← up.health
    if healthResp.ok then
      let hash ← sha256 (.str "WCAF_HEADS_NOT_AVAILABLE")
      pure { hash := hash, count := 0, note := some "chain-heads endpoint not yet implemented" }
    else
      throw ("Forensics fetch failed: " ++ toString response.status)
  else
    let data ← response.json
    let heads := orElse (← getMember data "heads") (.arr [])
    let projected ← arrayMap heads projectHead
    let sortedHeads ← sortWith (compareByKey up.localeCompare "document_id") projected
    let headHashes ← sortedHeads.mapM (fun h => getMember h "head_hash")
    let hash ← computeRootHash (some headHashes)
    pure { hash := hash, count := arrayLength heads, snapshot_at := some up.wcafClock }

/-- The function `getWcafHeadsSnapshot()`. -/
def getWcafHeadsSnapshot (up : Upstream) : Except String SourceSnapshot :=
  match wcafTry up with
  | .ok r => .ok r
  | .error message => do
    let hash ← sha256 (.str "WCAF_UNAVAILABLE")
    pure { hash := hash, count := 0, error := some message }

/-- The function `createSnapshot()`: both collectors, then the combined digest. -/
def createSnapshot (up : Upstream) : Except String Snapshot := do
  let registrySnapshot ← getIssuerRegistrySnapshot up
  let wcafSnapshot ← getWcafHeadsSnapshot up
  let combinedRootHash ← sha256 (.str (registrySnapshot.hash ++ wcafSnapshot.hash))
  pure {
    issuer_registry_root_hash := registrySnapshot.hash
    issuer_count := registrySnapshot.count
    wcaf_heads_root_hash := wcafSnapshot.hash
    wcaf_document_count := wcafSnapshot.count
    combined_root_hash := combinedRootHash
    snapshot_at := up.snapshotClock }

/-! ### Sample environments -/

/-- Collation by UTF-16 code units, standing in for the host `localeCompare` in the samples. -/
def codeUnitCompare (a b : String) : Int :=
  if strLt a b then -1 else if strLt b a then 1 else 0

/-- Sample environment: every request is refused. -/
def upstreamDown : Upstream where
  directory := .error "fetch failed"
  chainHeads := .error "fetch failed"
  health := .error "fetch failed"
  localeCompare := codeUnitCompare
  registryClock := "2024-01-01T00:00:00.000Z"
  wcafClock := "2024-01-01T00:00:00.000Z"
  snapshotClock := "2024-01-01T00:00:00.001Z"

/-- Sample environment: the forensics service is up but has no `/chain-heads` endpoint, and the
registry answers 503. -/
def upstreamNoHeads : Upstream where
  directory := .ok { ok := false, status := 503, json := .error "Unexpected end of JSON input" }
  chainHeads := .ok { ok := false, status := 404, json := .error "Unexpected token" }
  health := .ok { ok := true, status := 200, json := .ok (.obj [("status", .str "ok")]) }
  localeCompare := codeUnitCompare
  registryClock := "2024-01-02T00:00:00.000Z"
  wcafClock := "2024-01-02T00:00:00.000Z"
  snapshotClock := "2024-01-02T00:00:00.001Z"

/-! ## `src/services/anchorService.js` -/

mutual
/-- The text `JSON.stringify(v)`; `none` is the JavaScript `undefined`. -/
def jsonStringify : JSValue → Option String
  | .undefined => none
  | .null => some "null"
  | .bool b => some (if b then "true" else "false")
  | .num n => some (numberToString n)
  | .str s => some (jsonQuote s)
  | .arr xs => some ("[" ++ joinStrings "," (jsonElems xs) ++ "]")
  | .obj kvs => some ("\x7b" ++ joinStrings "," (jsonProps kvs) ++ "\x7d")
/-- Array elements as `JSON.stringify` writes them: `null` for `undefined`. -/
def jsonElems : List JSValue → List String
  | [] => []
  | x :: xs => (jsonStringify x).getD "null" :: jsonElems xs
/-- Object properties as `JSON.stringify` writes them: properties that are `undefined` are left out. -/
def jsonProps : List (String × JSValue) → List String
  | [] => []
  | (k, v) :: rest =>
    match jsonStringify v with
    | some s => (jsonQuote k ++ ":" ++ s) :: jsonProps rest
    | none => jsonProps rest
end

/-- Values of the `status` column. -/
inductive Status where
  | PENDING
  | ANCHORED
  | FAILED
  | EXPIRED
  deriving DecidableEq, Repr

/-- Modelled from the spec: a row of table `transparency_anchors`.  The table definition is not
among the sources; the columns are those the queries name and the data model of the
specification lists, the optional ones being SQL `NULL` when absent. -/
structure Anchor where
  id : Nat
  issuer_registry_root_hash : String
  wcaf_heads_root_hash : String
  combined_root_hash : String
  issuer_count : Nat
  wcaf_document_count : Nat
  snapshot_at : String
  status : Status
  anchor_target : Option String
  anchor_ref : Option String
  anchor_proof : Option String
  anchored_at : Option Nat
  created_at : Nat
  deriving DecidableEq, Repr

/-- The table `transparency_anchors` and the next value of its `id` sequence. -/
structure Store where
  rows : List Anchor
  nextId : Nat
  deriving DecidableEq, Repr

/-- Modelled from the spec: the row `INSERT ... VALUES ($1, ..., $6, 'PENDING')` creates.  The
column defaults are in the table definition, which is not among the sources: `id` is assigned
at persistence, the target, reference, proof and anchoring time are absent, `created_at` is the
time of the insert. -/
def insertedRow (db : Store) (now : Nat) (snapshot : Snapshot) : Anchor where
  id := db.nextId
  issuer_registry_root_hash := snapshot.issuer_registry_root_hash
  wcaf_heads_root_hash := snapshot.wcaf_heads_root_hash
  combined_root_hash := snapshot.combined_root_hash
  issuer_count := snapshot.issuer_count
  wcaf_document_count := snapshot.wcaf_document_count
  snapshot_at := snapshot.snapshot_at
  status := .PENDING
  anchor_target := none
  anchor_ref := none
  anchor_proof := none
  anchored_at := none
  created_at := now

/-- The function `createAnchor()`: the store after the insert and the returned row.
`emitAnchorEvent` swallows every failure and touches neither the table nor the row. -/
def createAnchor (db : Store) (up : Upstream) (now : Nat) : Except String (Store × Anchor) := do
  let snapshot ← createSnapshot up
  let anchor := insertedRow db now snapshot
  pure ({ rows := db.rows ++ [anchor], nextId := db.nextId + 1 }, anchor)

/-- The statement `UPDATE transparency_anchors SET ... WHERE id = $1`: every row with that id is
rewritten by `set`. -/
def updateWhereId (rows : List Anchor) (anchorId : Nat) (set : Anchor → Anchor) : List Anchor :=
  rows.map (fun row => if row.id = anchorId then set row else row)

/-- The clause `RETURNING *` of that statement: the rewritten rows. -/
def returningWhereId (rows : List Anchor) (anchorId : Nat) (set : Anchor → Anchor) : List Anchor :=
  (rows.filter (fun row => row.id = anchorId)).map set

/-- The function `confirmAnchor(anchorId, {anchor_target, anchor_ref, anchor_proof})`: the store
after the update and the returned row (`none` is `null`); `now` is the database clock. -/
def confirmAnchor (db : Store) (now : Nat) (anchorId : Nat) (anchor_target anchor_ref : Option String)
    (anchor_proof : JSValue) : Store × Option Anchor :=
  let proof := if truthy anchor_proof then jsonStringify anchor_proof else none
  let set := fun (row : Anchor) =>
    { row with
      status := Status.ANCHORED
      anchor_target := anchor_target
      anchor_ref := anchor_ref
      anchor_proof := proof
      anchored_at := some now }
  ({ db with rows := updateWhereId db.rows anchorId set },
    (returningWhereId db.rows anchorId set).head?)

/-- The function `failAnchor(anchorId, reason)`: the store after the update and the returned row. -/
def failAnchor (db : Store) (anchorId : Nat) (reason : JSValue) : Store × Option Anchor :=
  let set := fun (row : Anchor) =>
    { row with
      status := Status.FAILED
      anchor_proof := jsonStringify (.obj [("error", reason)]) }
  ({ db with rows := updateWhereId db.rows anchorId set },
    (returningWhereId db.rows anchorId set).head?)

/-- The function `getAnchor(anchorId)`. -/
def getAnchor (db : Store) (anchorId : Nat) : Option Anchor :=
  (db.rows.filter (fun row => row.id = anchorId)).head?

/-- A status from which the specification permits no further transition. -/
def Status.isTerminal : Status → Bool
  | .ANCHORED => true
  | .FAILED => true
  | _ => false

/-! ### Sample rows -/

/-- Sample row: anchor 1, already `FAILED`. -/
def failedAnchor : Anchor where
  id := 1
  issuer_registry_root_hash := "r1"
  wcaf_heads_root_hash := "w1"
  combined_root_hash := "c1"
  issuer_count := 0
  wcaf_document_count := 0
  snapshot_at := "2024-01-01T00:00:00.001Z"
  status := .FAILED
  anchor_target := none
  anchor_ref := none
  anchor_proof := some "\x7b\"error\":\"Log server returned 500\"\x7d"
  anchored_at := none
  created_at := 10

/-- Sample row: anchor 2, already `ANCHORED`. -/
def anchoredAnchor : Anchor where
  id := 2
  issuer_registry_root_hash := "r2"
  wcaf_heads_root_hash := "w2"
  combined_root_hash := "c2"
  issuer_count := 3
  wcaf_document_count := 4
  snapshot_at := "2024-01-02T00:00:00.001Z"
  status := .ANCHORED
  anchor_target := some "local-log"
  anchor_ref := some "local://log/2"
  anchor_proof := some "\x7b\"type\":\"local-log\"\x7d"
  anchored_at := some 21
  created_at := 20

/-- Sample store holding the two sample rows. -/
def sampleStore : Store where
  rows := [failedAnchor, anchoredAnchor]
  nextId := 3

/-! ### Verification and reachable stores -/

/-- Result object of `verifyHash`; absent properties are `none`. -/
structure VerifyResult where
  verified : Bool
  message : Option String := none
  anchor_id : Option Nat := none
  anchored_at : Option Nat := none
  anchor_target : Option String := none
  anchor_ref : Option String := none
  deriving DecidableEq, Repr

/-- The query `SELECT * FROM transparency_anchors WHERE combined_root_hash = $1 AND
status = 'ANCHORED' ORDER BY created_at DESC LIMIT 1`.  Rows with equal `created_at` are kept in
table order (SQL leaves their order open). -/
def selectLatestAnchored (rows : List Anchor) (combinedRootHash : String) : List Anchor :=
  (sortBy (fun a b => decide (b.created_at ≤ a.created_at))
    (rows.filter (fun row =>
      decide (row.combined_root_hash = combinedRootHash) && decide (row.status = Status.ANCHORED)))).take 1

/-- The function `verifyHash(combinedRootHash)`: the store after the query and the result. -/
def verifyHash (db : Store) (combinedRootHash : String) : Store × VerifyResult :=
  match selectLatestAnchored db.rows combinedRootHash with
  | [] => (db, { verified := false, message := some "Hash not found in anchor history" })
  | anchor :: _ =>
    (db, {
      verified := true
      anchor_id := some anchor.id
      anchored_at := anchor.anchored_at
      anchor_target := anchor.anchor_target
      anchor_ref := anchor.anchor_ref })

/-- Store states reachable from the empty table by `createAnchor`, `confirmAnchor` and
`failAnchor`.  With `validated = true`, `confirmAnchor` is only called with `anchor_ref` present,
as the route and the publish callers do. -/
inductive Reachable (validated : Bool) : Store → Prop
  | empty (nextId : Nat) : Reachable validated { rows := [], nextId := nextId }
  | create (db db' : Store) (up : Upstream) (now : Nat) (anchor : Anchor) :
      Reachable validated db → createAnchor db up now = .ok (db', anchor) → Reachable validated db'
  | confirm (db : Store) (now anchorId : Nat) (anchor_target anchor_ref : Option String)
      (anchor_proof : JSValue) :
      Reachable validated db → (validated = true → anchor_ref.isSome = true) →
      Reachable validated (confirmAnchor db now anchorId anchor_target anchor_ref anchor_proof).1
  | fail (db : Store) (anchorId : Nat) (reason : JSValue) :
      Reachable validated db → Reachable validated (failAnchor db anchorId reason).1

/-! ## `src/services/publishService.js` -/

/-- A row of table `anchor_targets`. -/
structure AnchorTarget where
  target_id : String
  target_type : String
  config : JSValue
  enabled : Bool

/-- Result object of the publish functions; absent properties are `undefined` / `none`. -/
structure PublishResult where
  success : Bool
  anchor_ref : JSValue := .undefined
  proof : JSValue := .undefined
  error : Option String := none

/-- What a publish call takes from outside: the clock and the outcome of the POST to the log. -/
structure PublishEnv where
  /-- Reading of `new Date().toISOString()`. -/
  clock : String
  /-- Outcome of `fetch(logUrl + "/entries", ...)`; `.error` is a rejected `fetch`. -/
  logPost : Except String Response

/-- The function `publishToLocalLog(anchor)`. -/
def publishToLocalLog (env : PublishEnv) (anchor : Anchor) : Except String PublishResult := do
  let logEntry := JSValue.obj [
    ("timestamp", .str env.clock),
    ("combined_root_hash", .str anchor.combined_root_hash),
    ("issuer_registry_root_hash", .str anchor.issuer_registry_root_hash),
    ("wcaf_heads_root_hash", .str anchor.wcaf_heads_root_hash),
    ("anchor_id", .num anchor.id)]
  let entry_hash ← sha256 logEntry
  pure {
    success := true
    anchor_ref := .str ("local://log/" ++ toString anchor.id)
    proof := .obj [("type", .str "local-log"), ("entry_hash", .str entry_hash),
      ("logged_at", .str env.clock)] }

/-- The read `config?.url`. -/
def optionalMember (v : JSValue) (key : String) : JSValue :=
  match v with
  | .obj kvs => getProp kvs key
  | _ => .undefined

/-- Body of the `try` block of `publishToPublicLog`. -/
def publicLogTry (env : PublishEnv) (logUrl : JSValue) : Except String PublishResult := do
  let response ← env.logPost
  if !response.ok then
    throw ("Log server returned " ++ toString response.status)
  else
    let result ← response.json
    let entry_url ← getMember result "entry_url"
    let entry_id ← getMember result "entry_id"
    let entry_hash ← getMember result "entry_hash"
    let inclusion_proof ← getMember result "inclusion_proof"
    pure {
      success := true
      anchor_ref := orElse entry_url (.str (jsToString logUrl ++ "/entries/" ++ jsToString entry_id))
      proof := .obj [("type", .str "public-log"), ("entry_id", entry_id),
        ("entry_hash", entry_hash), ("inclusion_proof", inclusion_proof)] }

/-- The function `publishToPublicLog(anchor, config)`. -/
def publishToPublicLog (env : PublishEnv) (_anchor : Anchor) (config : JSValue) :
    Except String PublishResult :=
  let logUrl := orElse (optionalMember config "url") (.str "https://transparency.windi.systems/log")
  match publicLogTry env logUrl with
  | .ok r => .ok r
  | .error message => .ok { success := false, error := some message }

/-- The function `publishToNotary(anchor, config)`. -/
def publishToNotary (_anchor : Anchor) (_config : JSValue) : Except String PublishResult :=
  .ok { success := false, error := some "Notary integration not yet implemented" }

/-- The function `publishToBlockchain(anchor, config)`. -/
def publishToBlockchain (_anchor : Anchor) (_config : JSValue) : Except String PublishResult :=
  .ok { success := false, error := some "Blockchain integration not yet implemented" }

/-- The function `publishToTarget(anchor, target)`. -/
def publishToTarget (env : PublishEnv) (anchor : Anchor) (target : AnchorTarget) :
    Except String PublishResult :=
  if target.target_type = "PUBLIC_LOG" then
    if target.target_id = "local-log" then publishToLocalLog env anchor
    else publishToPublicLog env anchor target.config
  else if target.target_type = "NOTARY" then publishToNotary anchor target.config
  else if target.target_type = "BLOCKCHAIN" then publishToBlockchain anchor target.config
  else .ok { success := false, error := some ("Unknown target type: " ++ target.target_type) }

/-! ### Sample lifecycle -/

/-- Sample store: the empty table. -/
def emptyStore : Store where
  rows := []
  nextId := 1

/-- Sample snapshot: what `createSnapshot` returns when every request is refused. -/
def snapshotDown : Snapshot where
  issuer_registry_root_hash := sha256Hex "REGISTRY_UNAVAILABLE"
  issuer_count := 0
  wcaf_heads_root_hash := sha256Hex "WCAF_UNAVAILABLE"
  wcaf_document_count := 0
  combined_root_hash := sha256Hex (sha256Hex "REGISTRY_UNAVAILABLE" ++ sha256Hex "WCAF_UNAVAILABLE")
  snapshot_at := "2024-01-01T00:00:00.001Z"

/-- Sample store: after `createAnchor` on the empty table at time 5 (anchor 1, `PENDING`). -/
def storeCreated : Store where
  rows := [insertedRow emptyStore 5 snapshotDown]
  nextId := 2

/-- Sample store: anchor 1 confirmed at time 6 with target, reference and proof. -/
def storeConfirmed : Store :=
  (confirmAnchor storeCreated 6 1 (some "local-log") (some "local://log/1")
    (.obj [("type", .str "local-log")])).1

/-- Sample store: anchor 1 confirmed, then failed by a later publish attempt. -/
def storeFailedAfterConfirm : Store :=
  (failAnchor storeConfirmed 1 (.str "Log server returned 500")).1

/-- Sample store: anchor 1 failed without ever being confirmed. -/
def storeFailedFresh : Store :=
  (failAnchor storeCreated 1 (.str "Log server returned 500")).1

/-- Sample store: anchor 1 confirmed with a reference but no proof. -/
def storeConfirmedNoProof : Store :=
  (confirmAnchor storeCreated 6 1 (some "local-log") (some "local://log/1") .undefined).1

/-- The three terminal fields of a row and whether each is set. -/
def Anchor.terminalFieldsSet (a : Anchor) : Bool × Bool × Bool :=
  (a.anchor_ref.isSome, a.anchor_proof.isSome, a.anchored_at.isSome)

/-- The relation between status and terminal fields that every row of a reachable store
satisfies. -/
def RowInvariant (validated : Bool) (a : Anchor) : Prop :=
  (a.status = .PENDING →
    a.anchor_target = none ∧ a.anchor_ref = none ∧ a.anchor_proof = none ∧ a.anchored_at = none) ∧
  (a.status = .ANCHORED →
    a.anchored_at.isSome = true ∧ (validated = true → a.anchor_ref.isSome = true)) ∧
  (a.status = .FAILED → a.anchor_proof.isSome = true) ∧
  a.status ≠ .EXPIRED

/-! ### Sample publish targets -/

/-- Sample environment of a publish call: the log server answers 500. -/
def publishEnvDown : PublishEnv where
  clock := "2024-01-03T00:00:00.000Z"
  logPost := .ok { ok := false, status := 500, json := .error "Unexpected end of JSON input" }

/-- Sample target: the reserved local log. -/
def localLogTarget : AnchorTarget where
  target_id := "local-log"
  target_type := "PUBLIC_LOG"
  config := .obj []
  enabled := true

/-- Sample target: a certificate-transparency target as the data model lists it. -/
def ctTarget : AnchorTarget where
  target_id := "ct-main"
  target_type := "CERTIFICATE_TRANSPARENCY"
  config := .obj []
  enabled := true

/-- The test "`v` is `null` or `undefined`": the elements `join` writes as the empty string. -/
def JSValue.isNullish : JSValue → Bool
  | .undefined => true
  | .null => true
  | _ => false

/-- The list of `head_event_hash` values of the heads of a chain-heads body, in listing order. -/
def headEventHashes (heads : List JSValue) : List JSValue :=
  heads.map (fun h => optionalMember h "head_event_hash")

/-! ### Sample chain-heads responses -/

/-- Sample chain-heads body: documents `doc-1` and `doc-2` with heads `aa` and `bb`. -/
def headsBodyA : JSValue :=
  .obj [("heads", .arr [
    .obj [("document_id", .str "doc-1"), ("head_event_hash", .str "aa")],
    .obj [("document_id", .str "doc-2"), ("head_event_hash", .str "bb")]])]

/-- Sample chain-heads body: the same two head hashes, listed in the other order and attached to
other documents (`a-doc` holds `bb`, `doc-2` holds `aa`). -/
def headsBodyB : JSValue :=
  .obj [("heads", .arr [
    .obj [("document_id", .str "a-doc"), ("head_event_hash", .str "bb")],
    .obj [("document_id", .str "doc-2"), ("head_event_hash", .str "aa")]])]

/-- Sample environment answering `/chain-heads` with `body`. -/
def upstreamHeads (body : JSValue) : Upstream where
  directory := .error "fetch failed"
  chainHeads := .ok { ok := true, status := 200, json := .ok body }
  health := .error "fetch failed"
  localeCompare := codeUnitCompare
  registryClock := "2024-01-04T00:00:00.000Z"
  wcafClock := "2024-01-04T00:00:00.000Z"
  snapshotClock := "2024-01-04T00:00:00.001Z"

/-! ### Sample registry responses -/

/-- Canonical composition of `e` followed by U+0301 (combining acute accent) into U+00E9. -/
def composeAcute : List Char → List Char
  | [] => []
  | [c] => [c]
  | c :: d :: rest =>
    if c.toNat = 0x65 ∧ d.toNat = 0x301 then Char.ofNat 0xE9 :: composeAcute rest
    else c :: composeAcute (d :: rest)

/-- Sample host collation: code-unit order after canonical composition of the acute `e`, so that
the canonically equivalent spellings of that letter compare equal, as ECMAScript requires of
`String.prototype.localeCompare`. -/
def canonicalCompare (a b : String) : Int :=
  codeUnitCompare (String.mk (composeAcute a.data)) (String.mk (composeAcute b.data))

/-- Sample issuer id: U+00E9 (precomposed). -/
def issuerIdComposed : String := String.mk [Char.ofNat 0xE9]

/-- Sample issuer id: `e` followed by U+0301 (decomposed), a different string. -/
def issuerIdDecomposed : String := String.mk [Char.ofNat 0x65, Char.ofNat 0x301]

/-- Sample issuer record with the precomposed id. -/
def issuerComposed : JSValue :=
  .obj [("issuer_id", .str issuerIdComposed), ("current_status", .str "ACTIVE"),
    ("status_updated_at", .str "2024-01-01T00:00:00.000Z")]

/-- Sample issuer record with the decomposed id. -/
def issuerDecomposed : JSValue :=
  .obj [("issuer_id", .str issuerIdDecomposed), ("current_status", .str "REVOKED"),
    ("status_updated_at", .str "2024-01-02T00:00:00.000Z")]

/-- Sample environment answering `/directory` with the given issuer listing, on a host with the
collation `canonicalCompare`. -/
def upstreamRegistry (issuers : List JSValue) : Upstream where
  directory := .ok { ok := true, status := 200, json := .ok (.obj [("issuers", .arr issuers)]) }
  chainHeads := .error "fetch failed"
  health := .error "fetch failed"
  localeCompare := canonicalCompare
  registryClock := "2024-01-05T00:00:00.000Z"
  wcafClock := "2024-01-05T00:00:00.000Z"
  snapshotClock := "2024-01-05T00:00:00.001Z"

/-- The string a record is ordered by under `compareByKey`: its `key` property when that is a
string. -/
def stringKey (key : String) (v : JSValue) : String :=
  match optionalMember v key with
  | .str s => s
  | _ => ""

/-- The record `projectIssuer` builds from an issuer that is an object. -/
def issuerRecord (i : JSValue) : JSValue :=
  .obj [("issuer_id", optionalMember i "issuer_id"),
    ("current_status", optionalMember i "current_status"),
    ("status_updated_at", optionalMember i "status_updated_at")]

/-- A well-formed record list: every element is an object whose `key` property is a string. -/
def HasStringKey (key : String) (l : List JSValue) : Prop :=
  ∀ x ∈ l, ∃ kvs s, x = .obj kvs ∧ getProp kvs key = .str s

/-- The record `projectHead` builds from a head that is an object. -/
def headRecord (h : JSValue) : JSValue :=
  .obj [("document_id", optionalMember h "document_id"),
    ("head_hash", optionalMember h "head_event_hash")]

/-! ## Order on code-unit sequences -/

theorem unitsLt_irrefl (a : List Nat) : unitsLt a a = false := by
  induction a with
  | nil => rfl
  | cons x xs ih => simp [unitsLt, ih]

theorem unitsLt_asymm : ∀ (a b : List Nat), unitsLt a b = true → unitsLt b a = false
  | _, [], h => by simp [unitsLt] at h
  | [], _ :: _, _ => by simp [unitsLt]
  | x :: xs, y :: ys, h => by
    simp only [unitsLt, Bool.or_eq_true, Bool.and_eq_true, decide_eq_true_eq, beq_iff_eq] at h
    simp only [unitsLt, Bool.or_eq_false_iff, Bool.and_eq_false_iff, decide_eq_false_iff_not]
    rcases h with h | ⟨h1, h2⟩
    · refine ⟨by omega, Or.inl ?_⟩
      simp; omega
    · subst h1
      exact ⟨by omega, Or.inr (unitsLt_asymm xs ys h2)⟩

theorem unitsLt_trans : ∀ (a b c : List Nat), unitsLt a b = true → unitsLt b c = true →
    unitsLt a c = true
  | _, _, [], _, h => by simp [unitsLt] at h
  | _, [], _ :: _, h, _ => by simp [unitsLt] at h
  | [], _ :: _, _ :: _, _, _ => by simp [unitsLt]
  | x :: xs, y :: ys, z :: zs, h1, h2 => by
    simp only [unitsLt, Bool.or_eq_true, Bool.and_eq_true, decide_eq_true_eq, beq_iff_eq] at h1 h2 ⊢
    rcases h1 with h1 | ⟨e1, t1⟩ <;> rcases h2 with h2 | ⟨e2, t2⟩
    · left; omega
    · left; omega
    · left; omega
    · right; exact ⟨by omega, unitsLt_trans xs ys zs t1 t2⟩

theorem unitsLt_connected : ∀ (a b : List Nat), unitsLt a b = false → unitsLt b a = false → a = b
  | [], [], _, _ => rfl
  | [], _ :: _, h, _ => by simp [unitsLt] at h
  | _ :: _, [], _, h => by simp [unitsLt] at h
  | x :: xs, y :: ys, h1, h2 => by
    simp only [unitsLt, Bool.or_eq_false_iff, Bool.and_eq_false_iff, decide_eq_false_iff_not,
      beq_eq_false_iff_ne, ne_eq] at h1 h2
    have hxy : x = y := by omega
    subst hxy
    have t1 : unitsLt xs ys = false := by
      rcases h1.2 with h | h
      · exact absurd rfl h
      · exact h
    have t2 : unitsLt ys xs = false := by
      rcases h2.2 with h | h
      · exact absurd rfl h
      · exact h
    rw [unitsLt_connected xs ys t1 t2]

/-! ## UTF-16 encoding is injective -/

theorem char_valid (c : Char) : c.toNat < 0xD800 ∨ (0xDFFF < c.toNat ∧ c.toNat < 0x110000) := by
  have h := c.valid
  simpa [UInt32.isValidChar, Nat.isValidChar, Char.toNat] using h

theorem char_eq_of_toNat_eq {c d : Char} (h : c.toNat = d.toNat) : c = d := by
  apply Char.ext
  apply UInt32.ext
  simpa [Char.toNat] using h

theorem utf16List_injective : ∀ (cs ds : List Char), utf16List cs = utf16List ds → cs = ds
  | [], [], _ => rfl
  | [], d :: ds, h => by
    simp only [utf16List, utf16Units] at h
    split at h <;> simp at h
  | c :: cs, [], h => by
    simp only [utf16List, utf16Units] at h
    split at h <;> simp at h
  | c :: cs, d :: ds, h => by
    have hc := char_valid c
    have hd := char_valid d
    simp only [utf16List, utf16Units] at h
    split at h <;> split at h
    · simp only [List.singleton_append, List.cons.injEq] at h
      rw [char_eq_of_toNat_eq h.1, utf16List_injective cs ds h.2]
    · simp only [List.singleton_append, List.cons_append, List.nil_append, List.cons.injEq] at h
      omega
    · simp only [List.singleton_append, List.cons_append, List.nil_append, List.cons.injEq] at h
      omega
    · simp only [List.cons_append, List.nil_append, List.cons.injEq] at h
      have e : c.toNat = d.toNat := by omega
      rw [char_eq_of_toNat_eq e, utf16List_injective cs ds h.2.2]

theorem toUTF16_injective {a b : String} (h : toUTF16 a = toUTF16 b) : a = b := by
  cases a with | mk as => cases b with | mk bs =>
  simp only [toUTF16] at h
  rw [utf16List_injective as bs h]

/-! ## The string order used by `sort()` -/

theorem strLt_asymm {a b : String} (h : strLt a b = true) : strLt b a = false :=
  unitsLt_asymm _ _ h

theorem strLt_trans {a b c : String} (h1 : strLt a b = true) (h2 : strLt b c = true) :
    strLt a c = true := unitsLt_trans _ _ _ h1 h2

theorem strLt_connected {a b : String} (h1 : strLt a b = false) (h2 : strLt b a = false) : a = b :=
  toUTF16_injective (unitsLt_connected _ _ h1 h2)

/-! ## Sorting -/

theorem sortBy_eq_insertionSort {α : Type} (le : α → α → Bool) (l : List α) :
    sortBy le l = List.insertionSort (fun a b => le a b = true) l := by
  have hins : ∀ (a : α) (l : List α),
      insertSorted le a l = List.orderedInsert (fun a b => le a b = true) a l := by
    intro a l
    induction l with
    | nil => rfl
    | cons b l ih => simp only [insertSorted, List.orderedInsert, ih]
  induction l with
  | nil => rfl
  | cons b l ih => simp only [sortBy, List.insertionSort, hins, ih]

theorem sortBy_perm {α : Type} (le : α → α → Bool) (l : List α) : (sortBy le l).Perm l := by
  rw [sortBy_eq_insertionSort]
  exact List.perm_insertionSort _ l

theorem sortBy_pairwise {α : Type} (le : α → α → Bool)
    (htotal : ∀ a b, le a b = true ∨ le b a = true)
    (htrans : ∀ a b c, le a b = true → le b c = true → le a c = true) (l : List α) :
    (sortBy le l).Pairwise (fun a b => le a b = true) := by
  rw [sortBy_eq_insertionSort]
  haveI : IsTotal α (fun a b => le a b = true) := ⟨htotal⟩
  haveI : IsTrans α (fun a b => le a b = true) := ⟨htrans⟩
  exact List.sorted_insertionSort _ l

theorem sortBy_eq_of_perm {α : Type} (le : α → α → Bool)
    (htotal : ∀ a b, le a b = true ∨ le b a = true)
    (htrans : ∀ a b c, le a b = true → le b c = true → le a c = true)
    (hanti : ∀ a b, le a b = true → le b a = true → a = b)
    {l₁ l₂ : List α} (h : l₁.Perm l₂) : sortBy le l₁ = sortBy le l₂ := by
  haveI : IsAntisymm α (fun a b => le a b = true) := ⟨hanti⟩
  exact List.eq_of_perm_of_sorted
    (((sortBy_perm le l₁).trans h).trans (sortBy_perm le l₂).symm)
    (sortBy_pairwise le htotal htrans l₁) (sortBy_pairwise le htotal htrans l₂)

theorem sortBy_map {α β : Type} (f : α → β) (le : α → α → Bool) (le2 : β → β → Bool)
    (h : ∀ a b, le2 (f a) (f b) = le a b) (l : List α) :
    sortBy le2 (l.map f) = (sortBy le l).map f := by
  have hins : ∀ (a : α) (l : List α),
      insertSorted le2 (f a) (l.map f) = (insertSorted le a l).map f := by
    intro a l
    induction l with
    | nil => rfl
    | cons b l ih =>
      simp only [List.map_cons, insertSorted, h]
      split
      · rfl
      · simp only [List.map_cons, ih]
  induction l with
  | nil => rfl
  | cons b l ih => simp only [List.map_cons, sortBy, ih, hins]

theorem strLe_total (a b : String) : (!strLt b a) = true ∨ (!strLt a b) = true := by
  cases h : strLt b a
  · exact Or.inl rfl
  · exact Or.inr (by rw [strLt_asymm h]; rfl)

theorem strLe_trans (a b c : String) (h1 : (!strLt b a) = true) (h2 : (!strLt c b) = true) :
    (!strLt c a) = true := by
  simp only [Bool.not_eq_true'] at h1 h2 ⊢
  cases hca : strLt c a
  · rfl
  · cases hab : strLt a b
    · have e : a = b := strLt_connected hab h1
      subst e
      rw [hca] at h2
      exact absurd h2 (by decide)
    · rw [strLt_trans hca hab] at h2
      exact absurd h2 (by decide)

theorem strLe_antisymm (a b : String) (h1 : (!strLt b a) = true) (h2 : (!strLt a b) = true) :
    a = b := by
  simp only [Bool.not_eq_true'] at h1 h2
  exact strLt_connected h2 h1

theorem sortStrings_perm (l : List String) : (sortStrings l).Perm l := sortBy_perm _ l

theorem sortStrings_eq_of_perm {l₁ l₂ : List String} (h : l₁.Perm l₂) :
    sortStrings l₁ = sortStrings l₂ :=
  sortBy_eq_of_perm _ strLe_total strLe_trans strLe_antisymm h

theorem sortStrings_pairwise (l : List String) :
    (sortStrings l).Pairwise (fun a b => strLt b a = false) := by
  have h := sortBy_pairwise (fun a b => !strLt b a) strLe_total strLe_trans l
  simpa [sortStrings] using h

theorem sortStrings_strict (l : List String) (hnd : l.Nodup) :
    (sortStrings l).Pairwise (fun a b => strLt a b = true) := by
  have h1 := sortStrings_pairwise l
  have h2 : (sortStrings l).Pairwise (fun a b => a ≠ b) := (sortStrings_perm l).nodup_iff.mpr hnd
  refine (h1.and h2).imp ?_
  intro a b hab
  cases h : strLt a b
  · exact absurd (strLt_connected h hab.1) hab.2
  · rfl

theorem sortCompare_str (a b : String) :
    decide (sortCompare (.str a) (.str b) ≤ 0) = !strLt b a := by
  simp only [sortCompare, jsToString]
  rw [Bool.eq_iff_iff]
  simp only [decide_eq_true_eq, Bool.not_eq_true']
  split
  · next h => simp [strLt_asymm h]
  · split
    · next h1 h2 => simp [h2]
    · next h1 h2 => simpa using h2

theorem arraySort_strings (l : List String) :
    arraySort (l.map JSValue.str) = (sortStrings l).map JSValue.str :=
  sortBy_map JSValue.str _ _ sortCompare_str l

/-! ## `stableStringify` -/

theorem renderedProp_stringifyProps (kvs : List (String × JSValue)) (key : String) :
    renderedProp (stringifyProps kvs) key = stableStringify (getProp kvs key) := by
  induction kvs with
  | nil => simp [stringifyProps, renderedProp, getProp, stableStringify]
  | cons p rest ih =>
    obtain ⟨k, v⟩ := p
    simp only [stringifyProps, renderedProp, getProp]
    split
    · rfl
    · exact ih

theorem stableStringify_obj (kvs : List (String × JSValue)) :
    stableStringify (.obj kvs) = some ("\x7b" ++ joinStrings "," (stablePairs kvs) ++ "\x7d") := by
  simp only [stableStringify, stablePairs, renderedProp_stringifyProps]

theorem stringifyElems_eq_map (xs : List JSValue) : stringifyElems xs = xs.map stableStringify := by
  induction xs with
  | nil => rfl
  | cons x xs ih => simp only [stringifyElems, List.map_cons, ih]

theorem stableStringify_eq_none_iff (v : JSValue) : stableStringify v = none ↔ v = .undefined := by
  cases v <;> simp [stableStringify]

theorem getProp_eq_of_perm {kvs kvs' : List (String × JSValue)} (h : kvs.Perm kvs')
    (hnd : (objectKeys kvs).Nodup) (key : String) : getProp kvs key = getProp kvs' key := by
  induction h with
  | nil => rfl
  | cons p _ ih =>
    obtain ⟨k, v⟩ := p
    simp only [objectKeys, List.map_cons, List.nodup_cons] at hnd
    simp only [getProp]
    split
    · rfl
    · exact ih hnd.2
  | swap p q l =>
    obtain ⟨k, v⟩ := p
    obtain ⟨k2, v2⟩ := q
    simp only [objectKeys, List.map_cons, List.nodup_cons, List.mem_cons, not_or] at hnd
    simp only [getProp]
    by_cases h1 : k = key <;> by_cases h2 : k2 = key
    · exact absurd (h2.trans h1.symm) hnd.1.1
    · simp [h1, h2]
    · simp [h1, h2]
    · simp [h1, h2]
  | trans h1 _ ih1 ih2 =>
    have hnd2 := ((h1.map Prod.fst).nodup_iff).mp hnd
    exact (ih1 hnd).trans (ih2 hnd2)

theorem stablePairs_eq_of_perm {kvs kvs' : List (String × JSValue)} (h : kvs.Perm kvs')
    (hnd : (objectKeys kvs).Nodup) : stablePairs kvs = stablePairs kvs' := by
  have hk : sortStrings (objectKeys kvs) = sortStrings (objectKeys kvs') :=
    sortStrings_eq_of_perm (h.map Prod.fst)
  simp only [stablePairs, hk]
  congr 1
  funext key
  rw [getProp_eq_of_perm h hnd key]

/-- C1. Two objects with the same key/value pairs (pairwise distinct keys) in a different key order
have the same `stableStringify` text, whose pairs follow the keys in strictly ascending
(UTF-16 lexicographic) order, and hence the same `sha256`; in particular
`stableStringify({z:1,a:2,m:3})` is `{"a":2,"m":3,"z":1}` and
`sha256({a:1,b:2}) = sha256({b:2,a:1})`. -/
theorem stableStringify_key_order_invariant (kvs kvs' : List (String × JSValue))
    (hnd : (objectKeys kvs).Nodup) (hperm : kvs.Perm kvs') :
    stableStringify (.obj kvs) = stableStringify (.obj kvs') ∧
    sha256 (.obj kvs) = sha256 (.obj kvs') ∧
    (∃ keys : List String, keys.Perm (objectKeys kvs) ∧
      keys.Pairwise (fun a b => strLt a b = true) ∧
      stableStringify (.obj kvs) = some ("\x7b" ++ joinStrings "," (keys.filterMap (fun key =>
        (stableStringify (getProp kvs key)).map (fun val => jsonQuote key ++ ":" ++ val)))
        ++ "\x7d")) ∧
    stableStringify (.obj [("z", .num 1), ("a", .num 2), ("m", .num 3)])
      = some "\x7b\"a\":2,\"m\":3,\"z\":1\x7d" ∧
    stableStringify (.obj [("a", .num 2), ("m", .num 3), ("z", .num 1)])
      = some "\x7b\"a\":2,\"m\":3,\"z\":1\x7d" ∧
    sha256 (.obj [("a", .num 1), ("b", .num 2)]) = sha256 (.obj [("b", .num 2), ("a", .num 1)]) := by
  have h1 : stableStringify (.obj kvs) = stableStringify (.obj kvs') := by
    rw [stableStringify_obj, stableStringify_obj, stablePairs_eq_of_perm hperm hnd]
  refine ⟨h1, ?_, ?_, by decide, by decide, ?_⟩
  · simp only [sha256, h1]
  · exact ⟨sortStrings (objectKeys kvs), sortStrings_perm _, sortStrings_strict _ hnd,
      stableStringify_obj kvs⟩
  · have h2 : stableStringify (.obj [("a", .num 1), ("b", .num 2)])
        = stableStringify (.obj [("b", .num 2), ("a", .num 1)]) := by decide
    simp only [sha256, h2]

/-- Witness for C1 at the objects `{z:1,a:2,m:3}` and `{a:2,m:3,z:1}` of the test suite. -/
theorem stableStringify_key_order_invariant_witness :
    stableStringify (.obj [("z", .num 1), ("a", .num 2), ("m", .num 3)])
      = stableStringify (.obj [("a", .num 2), ("m", .num 3), ("z", .num 1)]) :=
  (stableStringify_key_order_invariant
    [("z", .num 1), ("a", .num 2), ("m", .num 3)] [("a", .num 2), ("m", .num 3), ("z", .num 1)]
    (by decide) (@List.perm_append_comm _ [("z", JSValue.num 1)] [("a", JSValue.num 2), ("m", JSValue.num 3)])).1

theorem filterMap_insertSorted {α β : Type} (le : α → α → Bool) (f : α → Option β) (k : α)
    (hk : f k = none) (l : List α) : (insertSorted le k l).filterMap f = l.filterMap f := by
  induction l with
  | nil => simp [insertSorted, hk]
  | cons b l ih =>
    simp only [insertSorted]
    split
    · rw [List.filterMap_cons_none hk]
    · cases hb : f b with
      | none => rw [List.filterMap_cons_none hb, List.filterMap_cons_none hb, ih]
      | some y => rw [List.filterMap_cons_some hb, List.filterMap_cons_some hb, ih]

theorem getProp_of_not_mem (kvs : List (String × JSValue)) (key : String)
    (h : key ∉ objectKeys kvs) : getProp kvs key = .undefined := by
  induction kvs with
  | nil => rfl
  | cons p rest ih =>
    obtain ⟨k, v⟩ := p
    simp only [objectKeys, List.map_cons, List.mem_cons, not_or] at h
    simp only [getProp]
    rw [if_neg (fun e => h.1 e.symm)]
    exact ih h.2

theorem getProp_insert_undefined (l₁ l₂ : List (String × JSValue)) (k key : String)
    (hk : k ∉ objectKeys (l₁ ++ l₂)) :
    getProp (l₁ ++ (k, .undefined) :: l₂) key = getProp (l₁ ++ l₂) key := by
  induction l₁ with
  | nil =>
    simp only [List.nil_append, getProp]
    split
    · next h => subst h; exact (getProp_of_not_mem l₂ k hk).symm
    · rfl
  | cons p rest ih =>
    obtain ⟨k2, v2⟩ := p
    simp only [objectKeys, List.cons_append, List.map_cons, List.mem_cons, not_or] at hk
    simp only [List.cons_append, getProp]
    split
    · rfl
    · exact ih hk.2

theorem stablePairs_filter (kvs : List (String × JSValue)) :
    stablePairs kvs =
      ((sortStrings (objectKeys kvs)).filter (fun key => !(getProp kvs key).isUndefined)).map
        (fun key => jsonQuote key ++ ":" ++ (stableStringify (getProp kvs key)).getD "") := by
  simp only [stablePairs]
  induction sortStrings (objectKeys kvs) with
  | nil => rfl
  | cons key rest ih =>
    cases hv : stableStringify (getProp kvs key) with
    | none =>
      have hu := (stableStringify_eq_none_iff _).mp hv
      rw [List.filterMap_cons_none (by rw [hv]; rfl), ih, List.filter_cons_of_neg]
      simp [hu, JSValue.isUndefined]
    | some s =>
      have hu : (getProp kvs key).isUndefined = false := by
        cases hg : getProp kvs key <;> simp_all [JSValue.isUndefined, stableStringify]
      rw [List.filterMap_cons_some (by rw [hv]; rfl), ih, List.filter_cons_of_pos (by simp [hu])]
      simp [hv]

/-- C2. `stableStringify` leaves out exactly the keys whose value is `undefined`: inserting a new
key with value `undefined` anywhere in an object does not change its canonical text, the pairs
written are those of the sorted keys whose value is not `undefined`, a key whose value is `null`
is written as `"key":null`, and `stableStringify(null)` is `"null"` while
`stableStringify(undefined)` is `undefined`; in particular `{a:1,b:undefined,c:3}` and
`{a:1,c:3}` both give `{"a":1,"c":3}`. -/
theorem stableStringify_omits_undefined (l₁ l₂ : List (String × JSValue)) (k : String)
    (hk : k ∉ objectKeys (l₁ ++ l₂)) :
    stableStringify (.obj (l₁ ++ (k, .undefined) :: l₂)) = stableStringify (.obj (l₁ ++ l₂)) ∧
    (∀ kvs : List (String × JSValue),
      stableStringify (.obj kvs) = some ("\x7b" ++ joinStrings "," (stablePairs kvs) ++ "\x7d") ∧
      stablePairs kvs =
        ((sortStrings (objectKeys kvs)).filter (fun key => !(getProp kvs key).isUndefined)).map
          (fun key => jsonQuote key ++ ":" ++ (stableStringify (getProp kvs key)).getD "")) ∧
    (∀ (kvs : List (String × JSValue)) (key : String), key ∈ objectKeys kvs →
      getProp kvs key = .null → (jsonQuote key ++ ":" ++ "null") ∈ stablePairs kvs) ∧
    (∀ v : JSValue, stableStringify v = none ↔ v = .undefined) ∧
    stableStringify (.obj [("a", .num 1), ("b", .undefined), ("c", .num 3)])
      = some "\x7b\"a\":1,\"c\":3\x7d" ∧
    stableStringify (.obj [("a", .num 1), ("c", .num 3)]) = some "\x7b\"a\":1,\"c\":3\x7d" ∧
    stableStringify (.obj [("a", .null)]) = some "\x7b\"a\":null\x7d" ∧
    stableStringify .null = some "null" := by
  refine ⟨?_, fun kvs => ⟨stableStringify_obj kvs, stablePairs_filter kvs⟩, ?_,
    stableStringify_eq_none_iff, by decide, by decide, by decide, by decide⟩
  · rw [stableStringify_obj, stableStringify_obj]
    have hperm : (objectKeys (l₁ ++ (k, JSValue.undefined) :: l₂)).Perm (k :: objectKeys (l₁ ++ l₂)) := by
      simp only [objectKeys, List.map_append, List.map_cons]
      exact List.perm_middle
    have hsort : sortStrings (objectKeys (l₁ ++ (k, JSValue.undefined) :: l₂))
        = insertSorted (fun a b => !strLt b a) k (sortStrings (objectKeys (l₁ ++ l₂))) := by
      rw [sortStrings_eq_of_perm hperm]
      rfl
    have hfun : (fun key => (stableStringify (getProp (l₁ ++ (k, JSValue.undefined) :: l₂) key)).map
          (fun val => jsonQuote key ++ ":" ++ val))
        = (fun key => (stableStringify (getProp (l₁ ++ l₂) key)).map
          (fun val => jsonQuote key ++ ":" ++ val)) := by
      funext key
      rw [getProp_insert_undefined l₁ l₂ k key hk]
    simp only [stablePairs, hsort, hfun]
    rw [filterMap_insertSorted]
    rw [getProp_of_not_mem _ _ hk]
    rfl
  · intro kvs key hmem hnull
    simp only [stablePairs, List.mem_filterMap]
    refine ⟨key, (sortStrings_perm _).mem_iff.mpr hmem, ?_⟩
    rw [hnull]
    rfl

/-- Witness for C2: key `b` inserted with value `undefined` between `a` and `c`. -/
theorem stableStringify_omits_undefined_witness :
    stableStringify (.obj ([("a", .num 1)] ++ ("b", .undefined) :: [("c", .num 3)]))
      = stableStringify (.obj ([("a", .num 1)] ++ [("c", .num 3)])) :=
  (stableStringify_omits_undefined [("a", .num 1)] [("c", .num 3)] "b" (by decide)).1

theorem reduceOption_stringifyElems (xs : List JSValue) :
    (stringifyElems xs).reduceOption =
      (xs.filter (fun x => !x.isUndefined)).map (fun x => (stableStringify x).getD "") := by
  induction xs with
  | nil => rfl
  | cons x xs ih =>
    simp only [stringifyElems]
    cases hv : stableStringify x with
    | none =>
      have hu := (stableStringify_eq_none_iff _).mp hv
      rw [List.reduceOption_cons_of_none, ih, List.filter_cons_of_neg]
      simp [hu, JSValue.isUndefined]
    | some s =>
      have hu : x.isUndefined = false := by
        cases x <;> simp_all [JSValue.isUndefined, stableStringify]
      rw [List.reduceOption_cons_of_some, ih, List.filter_cons_of_pos (by simp [hu])]
      simp [hv]

/-- C3 (counterexample). The three-element sequence `[1, undefined, 2]` canonicalizes to the same
text `[1,2]` as the two-element sequence `[1, 2]`: the `undefined` element is dropped, so it is
not true that a sequence with an `undefined` element differs in text from the one without. -/
theorem stableStringify_array_drops_undefined :
    stableStringify (.arr [.num 1, .undefined, .num 2]) = some "[1,2]" ∧
    stableStringify (.arr [.num 1, .undefined, .num 2]) = stableStringify (.arr [.num 1, .num 2]) ∧
    ¬ (∀ l₁ l₂ : List JSValue,
      stableStringify (.arr (l₁ ++ .undefined :: l₂)) ≠ stableStringify (.arr (l₁ ++ l₂))) := by
  refine ⟨by decide, by decide, fun h => h [.num 1] [.num 2] (by decide)⟩

/-- C3 (amended). The canonical text of a sequence is `[`, then the canonical texts of its
elements other than `undefined`, in their original order and comma-separated, then `]`:
elements that are `undefined` are filtered out, every other element is kept
(`stableStringify([3,1,2])` is `[3,1,2]`). -/
theorem stableStringify_array (xs : List JSValue) :
    stableStringify (.arr xs) = some ("[" ++ joinStrings ","
      ((xs.filter (fun x => !x.isUndefined)).map (fun x => (stableStringify x).getD "")) ++ "]") ∧
    stableStringify (.arr xs) =
      some ("[" ++ joinStrings "," (xs.map stableStringify).reduceOption ++ "]") ∧
    stableStringify (.arr xs) = stableStringify (.arr (xs.filter (fun x => !x.isUndefined))) ∧
    stableStringify (.arr [.num 3, .num 1, .num 2]) = some "[3,1,2]" := by
  have h1 : stableStringify (.arr xs) = some ("[" ++ joinStrings ","
      ((xs.filter (fun x => !x.isUndefined)).map (fun x => (stableStringify x).getD "")) ++ "]") := by
    simp only [stableStringify, reduceOption_stringifyElems]
  refine ⟨h1, ?_, ?_, by decide⟩
  · simp only [stableStringify, stringifyElems_eq_map]
  · rw [h1]
    simp only [stableStringify, reduceOption_stringifyElems, List.filter_filter, Bool.and_self]

/-! ## `sha256` and `computeRootHash` -/

theorem sha256_str (s : String) : sha256 (.str s) = .ok (sha256Hex s) := rfl

theorem joinParts_strings (l : List String) : joinParts (l.map JSValue.str) = l := by
  induction l with
  | nil => rfl
  | cons s l ih => simp only [List.map_cons, joinParts, jsToString, ih]

theorem joinStrings_empty_sep (l : List String) :
    joinStrings "" l = l.foldr (fun s acc => s ++ acc) "" := by
  induction l with
  | nil => rfl
  | cons s l ih =>
    cases l with
    | nil => simp [joinStrings]
    | cons t rest =>
      simp only [joinStrings, List.foldr_cons] at ih ⊢
      rw [ih, String.append_empty]

theorem computeRootHash_strings (h : String) (t : List String) :
    computeRootHash (some ((h :: t).map JSValue.str))
      = .ok (sha256Hex (joinStrings "" (sortStrings (h :: t)))) := by
  simp only [computeRootHash, List.length_map, List.length_cons, Nat.add_one_ne_zero, if_false,
    arraySort_strings, arrayJoin, joinParts_strings, sha256_str]

/-- C4. `computeRootHash` is order-invariant: a permutation of a list of digest strings has the
same root hash as the list. -/
theorem computeRootHash_perm (hs hs' : List String) (hperm : hs.Perm hs') :
    computeRootHash (some (hs'.map JSValue.str)) = computeRootHash (some (hs.map JSValue.str)) := by
  cases hs with
  | nil => rw [List.nil_perm.mp hperm]
  | cons a as =>
    cases hs' with
    | nil => exact absurd hperm.symm (List.not_perm_nil_cons _ _)
    | cons b bs =>
      rw [computeRootHash_strings, computeRootHash_strings, sortStrings_eq_of_perm hperm]

/-- Witness for C4 at the two orders of the test suite. -/
theorem computeRootHash_perm_witness :
    computeRootHash (some (["ghi789", "abc123", "def456"].map JSValue.str))
      = computeRootHash (some (["abc123", "def456", "ghi789"].map JSValue.str)) :=
  computeRootHash_perm ["abc123", "def456", "ghi789"] ["ghi789", "abc123", "def456"]
    (@List.perm_append_comm _ ["abc123", "def456"] ["ghi789"])

theorem heapRead_append_length (heap : ArrayHeap) (c : List JSValue) :
    heapRead (heap ++ [c]) heap.length = c := by
  simp [heapRead, List.getD_eq_getElem?_getD]

theorem set_append_length (heap : ArrayHeap) (c d : List JSValue) :
    (heap ++ [c]).set heap.length d = heap ++ [d] := by
  induction heap with
  | nil => rfl
  | cons x xs ih => simp only [List.cons_append, List.length_cons, List.set_cons_succ, ih]

/-- C5. `computeRootHash` equals its reference definition: an absent or empty input gives
`sha256("EMPTY")`; a non-empty list of strings gives the SHA-256 of the concatenation, with no
separator, of the strings sorted ascending (a sorted permutation of the input); and the run
leaves every array that existed before the call, the input included, unchanged (the sort acts on
a fresh copy). -/
theorem computeRootHash_reference (h : String) (t : List String) (heap : ArrayHeap)
    (hashes : Option Nat) :
    computeRootHash none = .ok (sha256Hex "EMPTY") ∧
    computeRootHash (some []) = .ok (sha256Hex "EMPTY") ∧
    computeRootHash (some ((h :: t).map JSValue.str))
      = .ok (sha256Hex ((sortStrings (h :: t)).foldr (fun s acc => s ++ acc) "")) ∧
    (sortStrings (h :: t)).Perm (h :: t) ∧
    (sortStrings (h :: t)).Pairwise (fun a b => strLt b a = false) ∧
    (computeRootHashOnHeap heap hashes).2 = computeRootHash (hashes.map (heapRead heap)) ∧
    (computeRootHashOnHeap heap hashes).1.take heap.length = heap := by
  refine ⟨rfl, rfl, ?_, sortStrings_perm _, sortStrings_pairwise _, ?_, ?_⟩
  · rw [computeRootHash_strings, joinStrings_empty_sep]
  · cases hashes with
    | none => rfl
    | some r =>
      simp only [computeRootHashOnHeap, computeRootHash, Option.map_some']
      split
      · rfl
      · simp only [heapSpread, heapSort, heapRead_append_length, set_append_length]
  · cases hashes with
    | none => simp [computeRootHashOnHeap]
    | some r =>
      simp only [computeRootHashOnHeap]
      split
      · simp
      · simp only [heapSpread, heapSort, heapRead_append_length, set_append_length]
        simp

/-! ## SHA-256 output shape -/

theorem round_length (st : List Nat) (kw : Nat × Nat) (h : st.length = 8) :
    (Sha256.round st kw).length = 8 := by
  unfold Sha256.round
  split
  · rfl
  · exact h

theorem foldl_round_length (kws : List (Nat × Nat)) (st : List Nat) (h : st.length = 8) :
    (kws.foldl Sha256.round st).length = 8 := by
  induction kws generalizing st with
  | nil => exact h
  | cons kw kws ih => exact ih _ (round_length st kw h)

theorem compress_length (st block : List Nat) (h : st.length = 8) :
    (Sha256.compress st block).length = 8 := by
  simp only [Sha256.compress, List.length_zipWith, h, foldl_round_length _ st h, min_self]

theorem foldl_compress_length (bs : List (List Nat)) (st : List Nat) (h : st.length = 8) :
    (bs.foldl Sha256.compress st).length = 8 := by
  induction bs generalizing st with
  | nil => exact h
  | cons b bs ih => exact ih _ (compress_length st b h)

theorem hex32_length (w : Nat) : (Sha256.hex32 w).length = 8 := by
  simp [Sha256.hex32]

theorem flatMap_hex32_length (ws : List Nat) :
    (ws.flatMap Sha256.hex32).length = 8 * ws.length := by
  induction ws with
  | nil => rfl
  | cons w ws ih =>
    simp only [List.flatMap_cons, List.length_append, hex32_length, ih, List.length_cons]
    omega

theorem hexDigit_mem (n : Nat) : hexDigit n ∈ "0123456789abcdef".data := by
  unfold hexDigit
  by_cases h : n < 16
  · interval_cases n <;> decide
  · rw [List.getD_eq_default _ _ (by simpa using h)]
    decide

theorem sha256Hex_length (s : String) : (sha256Hex s).length = 64 := by
  simp only [sha256Hex, String.length, flatMap_hex32_length,
    foldl_compress_length _ Sha256.H0 rfl]

theorem sha256Hex_chars (s : String) : ∀ c ∈ (sha256Hex s).data, c ∈ "0123456789abcdef".data := by
  intro c hc
  simp only [sha256Hex, List.mem_flatMap, Sha256.hex32, List.mem_map] at hc
  obtain ⟨w, _, i, _, rfl⟩ := hc
  exact hexDigit_mem _

/-- C6. `sha256` hashes a string directly (not through `stableStringify`) as SHA-256 over its
UTF-8 bytes: the result always has 64 characters, all of them lower-case hexadecimal digits, and
`sha256("hello")` is `2cf24dba5fb0a30e26e83b2ac5b9e29e1b161e5c1fa7425e73043362938b9824`, of
length 64. -/
theorem sha256_hello :
    sha256 (.str "hello")
      = .ok "2cf24dba5fb0a30e26e83b2ac5b9e29e1b161e5c1fa7425e73043362938b9824" ∧
    "2cf24dba5fb0a30e26e83b2ac5b9e29e1b161e5c1fa7425e73043362938b9824".length = 64 ∧
    (∀ s : String, sha256 (.str s) = .ok (sha256Hex s) ∧ (sha256Hex s).length = 64 ∧
      ∀ c ∈ (sha256Hex s).data, c ∈ "0123456789abcdef".data) := by
  have h : sha256Hex "hello" = "2cf24dba5fb0a30e26e83b2ac5b9e29e1b161e5c1fa7425e73043362938b9824" := by
    decide!
  refine ⟨?_, by decide, fun s => ⟨rfl, sha256Hex_length s, sha256Hex_chars s⟩⟩
  rw [sha256_str, h]

/-! ## Snapshot collection -/

theorem getIssuerRegistrySnapshot_of_error (up : Upstream) (message : String)
    (h : registryTry up = .error message) :
    getIssuerRegistrySnapshot up
      = .ok { hash := sha256Hex "REGISTRY_UNAVAILABLE", count := 0, error := some message } := by
  simp only [getIssuerRegistrySnapshot, h]
  rfl

theorem getIssuerRegistrySnapshot_total (up : Upstream) :
    ∃ r, getIssuerRegistrySnapshot up = .ok r := by
  cases h : registryTry up with
  | error message => exact ⟨_, getIssuerRegistrySnapshot_of_error up message h⟩
  | ok r => exact ⟨r, by simp only [getIssuerRegistrySnapshot, h]⟩

theorem getWcafHeadsSnapshot_of_error (up : Upstream) (message : String)
    (h : wcafTry up = .error message) :
    getWcafHeadsSnapshot up
      = .ok { hash := sha256Hex "WCAF_UNAVAILABLE", count := 0, error := some message } := by
  simp only [getWcafHeadsSnapshot, h]
  rfl

theorem getWcafHeadsSnapshot_total (up : Upstream) : ∃ r, getWcafHeadsSnapshot up = .ok r := by
  cases h : wcafTry up with
  | error message => exact ⟨_, getWcafHeadsSnapshot_of_error up message h⟩
  | ok r => exact ⟨r, by simp only [getWcafHeadsSnapshot, h]⟩

theorem createSnapshot_of_parts (up : Upstream) (r w : SourceSnapshot)
    (hr : getIssuerRegistrySnapshot up = .ok r) (hw : getWcafHeadsSnapshot up = .ok w) :
    createSnapshot up = .ok {
      issuer_registry_root_hash := r.hash
      issuer_count := r.count
      wcaf_heads_root_hash := w.hash
      wcaf_document_count := w.count
      combined_root_hash := sha256Hex (r.hash ++ w.hash)
      snapshot_at := up.snapshotClock } := by
  simp only [createSnapshot, hr, hw]
  rfl

theorem registryTry_fetch_throws (up : Upstream) (e : String) (h : up.directory = .error e) :
    registryTry up = .error e := by
  simp only [registryTry, h]
  rfl

theorem registryTry_bad_status (up : Upstream) (r : Response) (h : up.directory = .ok r)
    (hok : r.ok = false) :
    registryTry up = .error ("Registry fetch failed: " ++ toString r.status) := by
  simp only [registryTry, h, bind, Except.bind, hok]
  rfl

theorem registryTry_json_throws (up : Upstream) (r : Response) (e : String)
    (h : up.directory = .ok r) (hok : r.ok = true) (hj : r.json = .error e) :
    registryTry up = .error e := by
  simp only [registryTry, h, bind, Except.bind, hok, hj]
  rfl

theorem wcafTry_fetch_throws (up : Upstream) (e : String) (h : up.chainHeads = .error e) :
    wcafTry up = .error e := by
  simp only [wcafTry, h]
  rfl

theorem wcafTry_health_throws (up : Upstream) (r : Response) (e : String)
    (h : up.chainHeads = .ok r) (hok : r.ok = false) (hh : up.health = .error e) :
    wcafTry up = .error e := by
  simp only [wcafTry, h, bind, Except.bind, hok, hh]
  rfl

theorem wcafTry_health_bad (up : Upstream) (r g : Response)
    (h : up.chainHeads = .ok r) (hok : r.ok = false) (hh : up.health = .ok g)
    (hg : g.ok = false) :
    wcafTry up = .error ("Forensics fetch failed: " ++ toString r.status) := by
  simp only [wcafTry, h, bind, Except.bind, hok, hh, hg]
  rfl

theorem wcafTry_health_good (up : Upstream) (r g : Response)
    (h : up.chainHeads = .ok r) (hok : r.ok = false) (hh : up.health = .ok g)
    (hg : g.ok = true) :
    wcafTry up = .ok {
      hash := sha256Hex "WCAF_HEADS_NOT_AVAILABLE"
      count := 0
      note := some "chain-heads endpoint not yet implemented" } := by
  simp only [wcafTry, h, bind, Except.bind, hok, hh, hg]
  rfl

/-- C7. Whatever the two upstream fetches do, `createSnapshot` returns a snapshot whose
`combined_root_hash` is `sha256(issuer_registry_root_hash + wcaf_heads_root_hash)`; the combined
digest is therefore a function of the two per-source digests alone: two snapshots (of any two
environments) that agree on them agree on the combined digest. -/
theorem createSnapshot_combined_root_hash (up up' : Upstream) :
    ∃ snap snap', createSnapshot up = .ok snap ∧ createSnapshot up' = .ok snap' ∧
      sha256 (.str (snap.issuer_registry_root_hash ++ snap.wcaf_heads_root_hash))
        = .ok snap.combined_root_hash ∧
      snap.combined_root_hash
        = sha256Hex (snap.issuer_registry_root_hash ++ snap.wcaf_heads_root_hash) ∧
      (snap'.issuer_registry_root_hash = snap.issuer_registry_root_hash →
        snap'.wcaf_heads_root_hash = snap.wcaf_heads_root_hash →
        snap'.combined_root_hash = snap.combined_root_hash) := by
  obtain ⟨r, hr⟩ := getIssuerRegistrySnapshot_total up
  obtain ⟨w, hw⟩ := getWcafHeadsSnapshot_total up
  obtain ⟨r', hr'⟩ := getIssuerRegistrySnapshot_total up'
  obtain ⟨w', hw'⟩ := getWcafHeadsSnapshot_total up'
  refine ⟨_, _, createSnapshot_of_parts up r w hr hw, createSnapshot_of_parts up' r' w' hr' hw',
    rfl, rfl, ?_⟩
  intro h1 h2
  simp only at h1 h2 ⊢
  rw [h1, h2]

/-- Witness for C7: two runs at different times, registry refused in both and the chain service
refused in both, give the same combined digest. -/
theorem createSnapshot_combined_root_hash_witness :
    ∃ snap snap', createSnapshot upstreamDown = .ok snap ∧
      createSnapshot { upstreamDown with snapshotClock := "2024-03-01T00:00:00.000Z" } = .ok snap' ∧
      snap.snapshot_at ≠ snap'.snapshot_at ∧
      snap'.combined_root_hash = snap.combined_root_hash := by
  obtain ⟨snap, snap', h, h', _, _, hreplay⟩ := createSnapshot_combined_root_hash upstreamDown
    { upstreamDown with snapshotClock := "2024-03-01T00:00:00.000Z" }
  have e : createSnapshot upstreamDown = .ok {
      issuer_registry_root_hash := sha256Hex "REGISTRY_UNAVAILABLE"
      issuer_count := 0
      wcaf_heads_root_hash := sha256Hex "WCAF_UNAVAILABLE"
      wcaf_document_count := 0
      combined_root_hash := sha256Hex (sha256Hex "REGISTRY_UNAVAILABLE" ++ sha256Hex "WCAF_UNAVAILABLE")
      snapshot_at := "2024-01-01T00:00:00.001Z" } := rfl
  have e' : createSnapshot { upstreamDown with snapshotClock := "2024-03-01T00:00:00.000Z" } = .ok {
      issuer_registry_root_hash := sha256Hex "REGISTRY_UNAVAILABLE"
      issuer_count := 0
      wcaf_heads_root_hash := sha256Hex "WCAF_UNAVAILABLE"
      wcaf_document_count := 0
      combined_root_hash := sha256Hex (sha256Hex "REGISTRY_UNAVAILABLE" ++ sha256Hex "WCAF_UNAVAILABLE")
      snapshot_at := "2024-03-01T00:00:00.000Z" } := rfl
  rw [e] at h
  rw [e'] at h'
  cases h
  cases h'
  exact ⟨_, _, e, e', by decide, hreplay rfl rfl⟩

/-- C8. Registry collection degrades and never fails: whenever the `try` block of
`getIssuerRegistrySnapshot` raises with some message (in particular when the fetch throws, when
the response has a non-success status, when reading the body throws), the function returns
`hash = sha256("REGISTRY_UNAVAILABLE")`, `count = 0` and `error` set to that message, and
`createSnapshot` returns normally with `issuer_registry_root_hash` equal to that sentinel and
`issuer_count = 0`. -/
theorem registry_degrades (up : Upstream) (message : String)
    (hfail : registryTry up = .error message ∨
      up.directory = .error message ∨
      (∃ r, up.directory = .ok r ∧ r.ok = false ∧
        message = "Registry fetch failed: " ++ toString r.status) ∨
      (∃ r, up.directory = .ok r ∧ r.ok = true ∧ r.json = .error message)) :
    getIssuerRegistrySnapshot up
      = .ok { hash := sha256Hex "REGISTRY_UNAVAILABLE", count := 0, error := some message } ∧
    sha256 (.str "REGISTRY_UNAVAILABLE") = .ok (sha256Hex "REGISTRY_UNAVAILABLE") ∧
    ∃ snap, createSnapshot up = .ok snap ∧
      snap.issuer_registry_root_hash = sha256Hex "REGISTRY_UNAVAILABLE" ∧
      snap.issuer_count = 0 := by
  have htry : registryTry up = .error message := by
    rcases hfail with h | h | ⟨r, h, hok, hm⟩ | ⟨r, h, hok, hj⟩
    · exact h
    · exact registryTry_fetch_throws up message h
    · rw [hm]; exact registryTry_bad_status up r h hok
    · exact registryTry_json_throws up r message h hok hj
  have hreg := getIssuerRegistrySnapshot_of_error up message htry
  obtain ⟨w, hw⟩ := getWcafHeadsSnapshot_total up
  exact ⟨hreg, rfl, _, createSnapshot_of_parts up _ w hreg hw, rfl, rfl⟩

/-- Witness for C8: the registry answers 503. -/
theorem registry_degrades_witness :
    getIssuerRegistrySnapshot upstreamNoHeads
      = .ok { hash := sha256Hex "REGISTRY_UNAVAILABLE", count := 0,
              error := some "Registry fetch failed: 503" } :=
  (registry_degrades upstreamNoHeads "Registry fetch failed: 503"
    (Or.inr (Or.inr (Or.inl ⟨_, rfl, rfl, by decide⟩)))).1

/-- C9. Chain-heads collection degrades and never fails, with two distinct sentinels:
`getWcafHeadsSnapshot` always returns; when `/chain-heads` answers a non-success status and
`/health` succeeds it returns `hash = sha256("WCAF_HEADS_NOT_AVAILABLE")`, `count = 0`; when
`/chain-heads` answers a non-success status and `/health` does not succeed, or either request
throws, or anything else in the `try` block raises, it returns `hash = sha256("WCAF_UNAVAILABLE")`,
`count = 0` with the message recorded. -/
theorem wcaf_heads_degrades (up : Upstream) :
    (∃ r, getWcafHeadsSnapshot up = .ok r) ∧
    (∀ r g : Response, up.chainHeads = .ok r → r.ok = false → up.health = .ok g → g.ok = true →
      getWcafHeadsSnapshot up = .ok {
        hash := sha256Hex "WCAF_HEADS_NOT_AVAILABLE"
        count := 0
        note := some "chain-heads endpoint not yet implemented" }) ∧
    (∀ r g : Response, up.chainHeads = .ok r → r.ok = false → up.health = .ok g → g.ok = false →
      getWcafHeadsSnapshot up = .ok {
        hash := sha256Hex "WCAF_UNAVAILABLE"
        count := 0
        error := some ("Forensics fetch failed: " ++ toString r.status) }) ∧
    (∀ (r : Response) (e : String), up.chainHeads = .ok r → r.ok = false → up.health = .error e →
      getWcafHeadsSnapshot up
        = .ok { hash := sha256Hex "WCAF_UNAVAILABLE", count := 0, error := some e }) ∧
    (∀ e : String, up.chainHeads = .error e →
      getWcafHeadsSnapshot up
        = .ok { hash := sha256Hex "WCAF_UNAVAILABLE", count := 0, error := some e }) ∧
    (∀ e : String, wcafTry up = .error e →
      getWcafHeadsSnapshot up
        = .ok { hash := sha256Hex "WCAF_UNAVAILABLE", count := 0, error := some e }) ∧
    sha256 (.str "WCAF_HEADS_NOT_AVAILABLE") = .ok (sha256Hex "WCAF_HEADS_NOT_AVAILABLE") ∧
    sha256 (.str "WCAF_UNAVAILABLE") = .ok (sha256Hex "WCAF_UNAVAILABLE") ∧
    sha256Hex "WCAF_HEADS_NOT_AVAILABLE" ≠ sha256Hex "WCAF_UNAVAILABLE" := by
  refine ⟨getWcafHeadsSnapshot_total up, ?_, ?_, ?_, ?_, getWcafHeadsSnapshot_of_error up, rfl, rfl,
    by decide!⟩
  · intro r g h hok hh hg
    simp only [getWcafHeadsSnapshot, wcafTry_health_good up r g h hok hh hg]
  · intro r g h hok hh hg
    exact getWcafHeadsSnapshot_of_error up _ (wcafTry_health_bad up r g h hok hh hg)
  · intro r e h hok hh
    exact getWcafHeadsSnapshot_of_error up _ (wcafTry_health_throws up r e h hok hh)
  · intro e h
    exact getWcafHeadsSnapshot_of_error up _ (wcafTry_fetch_throws up e h)

/-- Witness for C9: `/chain-heads` answers 404 while `/health` answers 200. -/
theorem wcaf_heads_degrades_witness :
    getWcafHeadsSnapshot upstreamNoHeads = .ok {
      hash := sha256Hex "WCAF_HEADS_NOT_AVAILABLE"
      count := 0
      note := some "chain-heads endpoint not yet implemented" } ∧
    getWcafHeadsSnapshot upstreamDown
      = .ok { hash := sha256Hex "WCAF_UNAVAILABLE", count := 0, error := some "fetch failed" } :=
  ⟨(wcaf_heads_degrades upstreamNoHeads).2.1 _ _ rfl rfl rfl rfl,
    (wcaf_heads_degrades upstreamDown).2.2.2.2.1 _ rfl⟩

/-! ## Anchor lifecycle -/

theorem mem_updateWhereId_of_mem (rows : List Anchor) (anchorId : Nat) (set : Anchor → Anchor)
    (a : Anchor) (ha : a ∈ rows) (hid : a.id = anchorId) : set a ∈ updateWhereId rows anchorId set := by
  simp only [updateWhereId, List.mem_map]
  exact ⟨a, ha, by rw [if_pos hid]⟩

theorem mem_updateWhereId_cases (rows : List Anchor) (anchorId : Nat) (set : Anchor → Anchor)
    (b : Anchor) (hb : b ∈ updateWhereId rows anchorId set) :
    (∃ a ∈ rows, a.id = anchorId ∧ b = set a) ∨ (b ∈ rows ∧ b.id ≠ anchorId) := by
  simp only [updateWhereId, List.mem_map] at hb
  obtain ⟨a, ha, hab⟩ := hb
  by_cases hid : a.id = anchorId
  · rw [if_pos hid] at hab
    exact Or.inl ⟨a, ha, hid, hab.symm⟩
  · rw [if_neg hid] at hab
    subst hab
    exact Or.inr ⟨ha, hid⟩

theorem mem_updateWhereId_other (rows : List Anchor) (anchorId : Nat) (set : Anchor → Anchor)
    (hset : ∀ a, (set a).id = a.id) (b : Anchor) (hid : b.id ≠ anchorId) :
    b ∈ updateWhereId rows anchorId set ↔ b ∈ rows := by
  constructor
  · intro hb
    rcases mem_updateWhereId_cases rows anchorId set b hb with ⟨a, _, ha, rfl⟩ | ⟨h, _⟩
    · exact absurd ((hset a).trans ha) hid
    · exact h
  · intro hb
    simp only [updateWhereId, List.mem_map]
    exact ⟨b, hb, by rw [if_neg hid]⟩

/-- C10 (counterexample). Anchor 1 of the sample store is `FAILED`, yet `confirmAnchor` moves it to
`ANCHORED` and stamps `anchored_at`; anchor 2 is `ANCHORED`, yet `failAnchor` moves it to `FAILED`
and replaces its proof; so it is not true that both keep the status of a terminal anchor. -/
theorem terminal_anchor_is_overwritten :
    (getAnchor sampleStore 1).map (fun a => (a.status, a.anchored_at)) = some (.FAILED, none) ∧
    (getAnchor (confirmAnchor sampleStore 30 1 (some "local-log") (some "local://log/1") .null).1 1).map
      (fun a => (a.status, a.anchored_at)) = some (.ANCHORED, some 30) ∧
    (getAnchor sampleStore 2).map (fun a => (a.status, a.anchor_proof))
      = some (.ANCHORED, some "\x7b\"type\":\"local-log\"\x7d") ∧
    (getAnchor (failAnchor sampleStore 2 (.str "late")).1 2).map (fun a => (a.status, a.anchor_proof))
      = some (.FAILED, some "\x7b\"error\":\"late\"\x7d") ∧
    ¬ (∀ (db : Store) (now anchorId : Nat) (anchor_target anchor_ref : Option String)
        (anchor_proof reason : JSValue) (a : Anchor),
      a ∈ db.rows → a.id = anchorId → a.status.isTerminal = true →
        (∀ b ∈ (confirmAnchor db now anchorId anchor_target anchor_ref anchor_proof).1.rows,
          b.id = anchorId → b.status = a.status) ∧
        (∀ b ∈ (failAnchor db anchorId reason).1.rows, b.id = anchorId → b.status = a.status)) := by
  refine ⟨by decide, by decide, by decide, by decide, fun h => ?_⟩
  have h1 := (h sampleStore 30 1 (some "local-log") (some "local://log/1") .null .null
    failedAnchor (by decide) rfl rfl).1
  revert h1
  decide

/-- C10 (amended). An anchor is created with status `PENDING`. `confirmAnchor` moves every row
with the given id to `ANCHORED` (setting target, reference, proof and `anchored_at`) and
`failAnchor` moves it to `FAILED` (setting the proof, leaving target, reference and `anchored_at`
as they were), whatever the row's current status: there is no guard on terminal rows. Rows with
another id are left as they are, and `null` is returned exactly when no row has the id. -/
theorem anchor_transitions_unguarded (db : Store) (up : Upstream) (now anchorId : Nat)
    (anchor_target anchor_ref : Option String) (anchor_proof reason : JSValue) :
    (∃ db' a, createAnchor db up now = .ok (db', a) ∧ a.status = .PENDING ∧
      db'.rows = db.rows ++ [a]) ∧
    (∀ a ∈ db.rows, a.id = anchorId →
      (∃ b ∈ (confirmAnchor db now anchorId anchor_target anchor_ref anchor_proof).1.rows,
        b = { a with
          status := .ANCHORED
          anchor_target := anchor_target
          anchor_ref := anchor_ref
          anchor_proof := if truthy anchor_proof then jsonStringify anchor_proof else none
          anchored_at := some now }) ∧
      (∃ b ∈ (failAnchor db anchorId reason).1.rows,
        b = { a with
          status := .FAILED
          anchor_proof := jsonStringify (.obj [("error", reason)]) })) ∧
    (∀ b ∈ (confirmAnchor db now anchorId anchor_target anchor_ref anchor_proof).1.rows,
      b.id = anchorId → b.status = .ANCHORED ∧ b.anchored_at = some now) ∧
    (∀ b ∈ (failAnchor db anchorId reason).1.rows, b.id = anchorId → b.status = .FAILED) ∧
    (∀ b : Anchor, b.id ≠ anchorId →
      (b ∈ (confirmAnchor db now anchorId anchor_target anchor_ref anchor_proof).1.rows ↔ b ∈ db.rows) ∧
      (b ∈ (failAnchor db anchorId reason).1.rows ↔ b ∈ db.rows)) ∧
    ((confirmAnchor db now anchorId anchor_target anchor_ref anchor_proof).2 = none ↔
      ∀ a ∈ db.rows, a.id ≠ anchorId) ∧
    ((failAnchor db anchorId reason).2 = none ↔ ∀ a ∈ db.rows, a.id ≠ anchorId) := by
  refine ⟨?_, ?_, ?_, ?_, ?_, ?_, ?_⟩
  · obtain ⟨r, hr⟩ := getIssuerRegistrySnapshot_total up
    obtain ⟨w, hw⟩ := getWcafHeadsSnapshot_total up
    simp only [createAnchor, createSnapshot_of_parts up r w hr hw]
    exact ⟨_, _, rfl, rfl, rfl⟩
  · intro a ha hid
    exact ⟨⟨_, mem_updateWhereId_of_mem db.rows anchorId _ a ha hid, rfl⟩,
      ⟨_, mem_updateWhereId_of_mem db.rows anchorId _ a ha hid, rfl⟩⟩
  · intro b hb hid
    rcases mem_updateWhereId_cases db.rows anchorId _ b hb with ⟨a, _, _, rfl⟩ | ⟨_, hne⟩
    · exact ⟨rfl, rfl⟩
    · exact absurd hid hne
  · intro b hb hid
    rcases mem_updateWhereId_cases db.rows anchorId _ b hb with ⟨a, _, _, rfl⟩ | ⟨_, hne⟩
    · rfl
    · exact absurd hid hne
  · intro b hid
    constructor
    · simp only [confirmAnchor]
      refine mem_updateWhereId_other db.rows anchorId _ ?_ b hid
      intro a
      rfl
    · simp only [failAnchor]
      refine mem_updateWhereId_other db.rows anchorId _ ?_ b hid
      intro a
      rfl
  · simp only [confirmAnchor, returningWhereId, List.head?_eq_none_iff, List.map_eq_nil_iff,
      List.filter_eq_nil_iff, decide_eq_true_eq]
  · simp only [failAnchor, returningWhereId, List.head?_eq_none_iff, List.map_eq_nil_iff,
      List.filter_eq_nil_iff, decide_eq_true_eq]

/-- Witness for C10 (amended): confirming the `FAILED` sample anchor 1 leaves a row with id 1 that
is `ANCHORED`. -/
theorem anchor_transitions_unguarded_witness :
    ∃ b ∈ (confirmAnchor sampleStore 30 1 (some "local-log") (some "local://log/1") .null).1.rows,
      b = { failedAnchor with
        status := .ANCHORED
        anchor_target := some "local-log"
        anchor_ref := some "local://log/1"
        anchor_proof := none
        anchored_at := some 30 } :=
  ((anchor_transitions_unguarded sampleStore upstreamDown 30 1 (some "local-log")
    (some "local://log/1") .null .null).2.1 failedAnchor (by decide) rfl).1

/-! ## Reachable stores -/

theorem createAnchor_eq (db : Store) (up : Upstream) (now : Nat) :
    ∃ snap, createSnapshot up = .ok snap ∧
      createAnchor db up now = .ok
        ({ rows := db.rows ++ [insertedRow db now snap], nextId := db.nextId + 1 },
          insertedRow db now snap) := by
  obtain ⟨r, hr⟩ := getIssuerRegistrySnapshot_total up
  obtain ⟨w, hw⟩ := getWcafHeadsSnapshot_total up
  refine ⟨_, createSnapshot_of_parts up r w hr hw, ?_⟩
  simp only [createAnchor, createSnapshot_of_parts up r w hr hw]
  rfl

theorem createAnchor_emptyStore :
    createAnchor emptyStore upstreamDown 5 = .ok (storeCreated, insertedRow emptyStore 5 snapshotDown) :=
  rfl

theorem reachable_storeCreated : Reachable true storeCreated :=
  Reachable.create emptyStore storeCreated upstreamDown 5 _ (Reachable.empty 1) createAnchor_emptyStore

theorem jsonStringify_obj_isSome (kvs : List (String × JSValue)) :
    (jsonStringify (.obj kvs)).isSome = true := by
  simp only [jsonStringify, Option.isSome_some]

/-- C11 (counterexample). Reachable stores in which the terminal fields do not match the status:
anchor 1 confirmed and then failed is `FAILED` with reference, proof and `anchored_at` all set;
anchor 1 failed without confirmation is `FAILED` with a proof set; anchor 1 confirmed without a
proof is `ANCHORED` with no proof. -/
theorem terminal_fields_not_iff_anchored :
    (Reachable true storeFailedAfterConfirm ∧
      storeFailedAfterConfirm.rows.map (fun a => (a.status, a.terminalFieldsSet))
        = [(.FAILED, true, true, true)]) ∧
    (Reachable true storeFailedFresh ∧
      storeFailedFresh.rows.map (fun a => (a.status, a.terminalFieldsSet))
        = [(.FAILED, false, true, false)]) ∧
    (Reachable true storeConfirmedNoProof ∧
      storeConfirmedNoProof.rows.map (fun a => (a.status, a.terminalFieldsSet))
        = [(.ANCHORED, true, false, true)]) ∧
    ¬ (∀ (db : Store), Reachable true db → ∀ a ∈ db.rows,
        (a.terminalFieldsSet = (true, true, true) ↔ a.status = .ANCHORED)) := by
  have h1 : Reachable true storeFailedAfterConfirm :=
    Reachable.fail _ 1 _ (Reachable.confirm _ 6 1 _ _ _ reachable_storeCreated (fun _ => rfl))
  have h2 : Reachable true storeFailedFresh := Reachable.fail _ 1 _ reachable_storeCreated
  have h3 : Reachable true storeConfirmedNoProof :=
    Reachable.confirm _ 6 1 _ _ _ reachable_storeCreated (fun _ => rfl)
  refine ⟨⟨h1, by decide⟩, ⟨h2, by decide⟩, ⟨h3, by decide⟩, fun h => ?_⟩
  have h4 := h storeConfirmedNoProof h3
    { insertedRow emptyStore 5 snapshotDown with
      status := .ANCHORED
      anchor_target := some "local-log"
      anchor_ref := some "local://log/1"
      anchor_proof := none
      anchored_at := some 6 }
    (List.mem_singleton.mpr rfl)
  exact absurd (h4.mpr rfl) (by decide)

theorem rowInvariant_insertedRow (validated : Bool) (db : Store) (now : Nat) (snap : Snapshot) :
    RowInvariant validated (insertedRow db now snap) := by
  refine ⟨fun _ => ⟨rfl, rfl, rfl, rfl⟩, fun h => ?_, fun h => ?_, ?_⟩
  · simp [insertedRow] at h
  · simp [insertedRow] at h
  · simp [insertedRow]

theorem reachable_rowInvariant (validated : Bool) (db : Store) (h : Reachable validated db) :
    ∀ a ∈ db.rows, RowInvariant validated a := by
  induction h with
  | empty nextId =>
    intro a ha
    simp at ha
  | create db db' up now anchor _ hc ih =>
    obtain ⟨snap, _, he⟩ := createAnchor_eq db up now
    rw [he] at hc
    cases hc
    intro a ha
    simp only [List.mem_append, List.mem_singleton] at ha
    rcases ha with ha | rfl
    · exact ih a ha
    · exact rowInvariant_insertedRow validated db now snap
  | confirm db now anchorId anchor_target anchor_ref anchor_proof _ hv ih =>
    intro b hb
    rcases mem_updateWhereId_cases db.rows anchorId _ b hb with ⟨a, _, _, rfl⟩ | ⟨hmem, _⟩
    · refine ⟨fun h => ?_, fun _ => ⟨rfl, hv⟩, fun h => ?_, ?_⟩
      · simp at h
      · simp at h
      · simp
    · exact ih b hmem
  | fail db anchorId reason _ ih =>
    intro b hb
    rcases mem_updateWhereId_cases db.rows anchorId _ b hb with ⟨a, _, _, rfl⟩ | ⟨hmem, _⟩
    · refine ⟨fun h => ?_, fun h => ?_, fun _ => jsonStringify_obj_isSome _, ?_⟩
      · simp at h
      · simp at h
      · simp
    · exact ih b hmem

/-- C11 (amended). In every store state reachable by `createAnchor`, `confirmAnchor` and
`failAnchor`: a `PENDING` anchor has no target, reference, proof or `anchored_at`; an `ANCHORED`
anchor has `anchored_at` set (and its reference set when `confirmAnchor` is only called with one);
a `FAILED` anchor has its proof set (the error payload); no anchor is `EXPIRED`. A freshly
created anchor is `PENDING` with none of the three fields set, and `failAnchor` leaves the anchor
`FAILED` with a proof and with the reference and `anchored_at` it had before (so none if it was
`PENDING`). -/
theorem reachable_terminal_fields (validated : Bool) (db : Store) (h : Reachable validated db) :
    (∀ a ∈ db.rows,
      (a.status = .PENDING →
        a.anchor_target = none ∧ a.anchor_ref = none ∧ a.anchor_proof = none ∧
          a.anchored_at = none) ∧
      (a.status = .ANCHORED →
        a.anchored_at.isSome = true ∧ (validated = true → a.anchor_ref.isSome = true)) ∧
      (a.status = .FAILED → a.anchor_proof.isSome = true) ∧
      a.status ≠ .EXPIRED) ∧
    (∀ (up : Upstream) (now : Nat), ∃ db' a, createAnchor db up now = .ok (db', a) ∧
      Reachable validated db' ∧ a ∈ db'.rows ∧ a.status = .PENDING ∧
      a.terminalFieldsSet = (false, false, false)) ∧
    (∀ (anchorId : Nat) (reason : JSValue), ∀ a ∈ db.rows, a.id = anchorId →
      ∃ b ∈ (failAnchor db anchorId reason).1.rows, b.id = anchorId ∧ b.status = .FAILED ∧
        b.anchor_proof = jsonStringify (.obj [("error", reason)]) ∧
        b.anchor_proof.isSome = true ∧
        b.anchor_ref = a.anchor_ref ∧ b.anchored_at = a.anchored_at ∧
        (a.status = .PENDING → b.anchored_at = none)) := by
  have hinv := reachable_rowInvariant validated db h
  refine ⟨hinv, ?_, ?_⟩
  · intro up now
    obtain ⟨snap, _, he⟩ := createAnchor_eq db up now
    exact ⟨_, _, he, Reachable.create db _ up now _ h he, by simp, rfl, rfl⟩
  · intro anchorId reason a ha hid
    refine ⟨_, mem_updateWhereId_of_mem db.rows anchorId _ a ha hid, hid, rfl, rfl,
      jsonStringify_obj_isSome _, rfl, rfl, ?_⟩
    intro hp
    exact ((hinv a ha).1 hp).2.2.2

/-- Witness for C11 (amended): the store holding the freshly created anchor 1 is reachable, and
failing anchor 1 there leaves it `FAILED` with a proof and no `anchored_at`. -/
theorem reachable_terminal_fields_witness :
    ∃ b ∈ (failAnchor storeCreated 1 (.str "Log server returned 500")).1.rows,
      b.status = .FAILED ∧ b.anchor_proof.isSome = true ∧ b.anchored_at = none := by
  obtain ⟨b, hb, _, hs, _, hp, _, _, hn⟩ :=
    (reachable_terminal_fields true storeCreated reachable_storeCreated).2.2 1
      (.str "Log server returned 500") (insertedRow emptyStore 5 snapshotDown)
      (List.mem_singleton.mpr rfl) rfl
  exact ⟨b, hb, hs, hp, hn rfl⟩

/-! ## `verifyHash` -/

theorem createdAt_desc_total (a b : Anchor) :
    decide (b.created_at ≤ a.created_at) = true ∨ decide (a.created_at ≤ b.created_at) = true := by
  simp only [decide_eq_true_eq]
  omega

theorem createdAt_desc_trans (a b c : Anchor) (h1 : decide (b.created_at ≤ a.created_at) = true)
    (h2 : decide (c.created_at ≤ b.created_at) = true) :
    decide (c.created_at ≤ a.created_at) = true := by
  simp only [decide_eq_true_eq] at h1 h2 ⊢
  omega

theorem selectLatestAnchored_nil (rows : List Anchor) (h : String) :
    selectLatestAnchored rows h = [] ↔
      ∀ a ∈ rows, ¬ (a.combined_root_hash = h ∧ a.status = .ANCHORED) := by
  simp only [selectLatestAnchored, List.take_eq_nil_iff, Nat.one_ne_zero, false_or]
  constructor
  · intro hs a ha hm
    have hp := (sortBy_perm (fun a b : Anchor => decide (b.created_at ≤ a.created_at))
      (rows.filter (fun row =>
        decide (row.combined_root_hash = h) && decide (row.status = Status.ANCHORED))))
    rw [hs] at hp
    have hnil := List.nil_perm.mp hp
    have hmem : a ∈ rows.filter (fun row =>
        decide (row.combined_root_hash = h) && decide (row.status = Status.ANCHORED)) := by
      simp only [List.mem_filter, Bool.and_eq_true, decide_eq_true_eq]
      exact ⟨ha, hm⟩
    rw [hnil] at hmem
    simp at hmem
  · intro hall
    have hf : rows.filter (fun row =>
        decide (row.combined_root_hash = h) && decide (row.status = Status.ANCHORED)) = [] := by
      simp only [List.filter_eq_nil_iff, Bool.and_eq_true, decide_eq_true_eq]
      exact hall
    rw [hf]
    rfl

theorem selectLatestAnchored_cons (rows : List Anchor) (h : String) (a : Anchor) (rest : List Anchor)
    (hs : selectLatestAnchored rows h = a :: rest) :
    a ∈ rows ∧ a.combined_root_hash = h ∧ a.status = .ANCHORED ∧
      ∀ b ∈ rows, b.combined_root_hash = h → b.status = .ANCHORED → b.created_at ≤ a.created_at := by
  simp only [selectLatestAnchored] at hs
  have hp := (sortBy_perm (fun a b : Anchor => decide (b.created_at ≤ a.created_at))
    (rows.filter (fun row =>
      decide (row.combined_root_hash = h) && decide (row.status = Status.ANCHORED))))
  have hsorted := sortBy_pairwise (fun a b : Anchor => decide (b.created_at ≤ a.created_at))
    createdAt_desc_total createdAt_desc_trans
    (rows.filter (fun row =>
      decide (row.combined_root_hash = h) && decide (row.status = Status.ANCHORED)))
  cases hl : sortBy (fun a b : Anchor => decide (b.created_at ≤ a.created_at))
      (rows.filter (fun row =>
        decide (row.combined_root_hash = h) && decide (row.status = Status.ANCHORED))) with
  | nil =>
    rw [hl] at hs
    simp at hs
  | cons x xs =>
    rw [hl] at hs hp hsorted
    simp only [List.take_succ_cons, List.take_zero, List.cons.injEq] at hs
    obtain ⟨rfl, _⟩ := hs
    have hx : x ∈ rows.filter (fun row =>
        decide (row.combined_root_hash = h) && decide (row.status = Status.ANCHORED)) :=
      hp.mem_iff.mp (List.mem_cons_self _ _)
    simp only [List.mem_filter, Bool.and_eq_true, decide_eq_true_eq] at hx
    refine ⟨hx.1, hx.2.1, hx.2.2, ?_⟩
    intro b hb hbh hbs
    have hbm : b ∈ x :: xs := by
      apply hp.mem_iff.mpr
      simp only [List.mem_filter, Bool.and_eq_true, decide_eq_true_eq]
      exact ⟨hb, hbh, hbs⟩
    rcases List.mem_cons.mp hbm with rfl | hbx
    · exact Nat.le_refl _
    · have := (List.pairwise_cons.mp hsorted).1 b hbx
      simpa using this

/-- C12. For every store and digest `h`, `verifyHash(h)` returns `verified: false` exactly when no
anchor has `combined_root_hash = h` and status `ANCHORED` (anchors with that digest that are only
`PENDING` or `FAILED` do not count); otherwise it returns `verified: true` with `anchor_id`,
`anchored_at`, `anchor_target` and `anchor_ref` of an `ANCHORED` anchor with that digest whose
creation time is the latest among them; the store is not modified. -/
theorem verifyHash_latest_anchored (db : Store) (h : String) :
    ((verifyHash db h).2.verified = false ↔
      ∀ a ∈ db.rows, ¬ (a.combined_root_hash = h ∧ a.status = .ANCHORED)) ∧
    (((∀ a ∈ db.rows, ¬ (a.combined_root_hash = h ∧ a.status = .ANCHORED)) ∧
        (verifyHash db h).2
          = { verified := false, message := some "Hash not found in anchor history" }) ∨
      (∃ a ∈ db.rows, a.combined_root_hash = h ∧ a.status = .ANCHORED ∧
        (∀ b ∈ db.rows, b.combined_root_hash = h → b.status = .ANCHORED →
          b.created_at ≤ a.created_at) ∧
        (verifyHash db h).2 = {
          verified := true
          anchor_id := some a.id
          anchored_at := a.anchored_at
          anchor_target := a.anchor_target
          anchor_ref := a.anchor_ref })) ∧
    (verifyHash db h).1 = db := by
  cases hs : selectLatestAnchored db.rows h with
  | nil =>
    have hnone := (selectLatestAnchored_nil db.rows h).mp hs
    refine ⟨?_, Or.inl ⟨hnone, by simp only [verifyHash, hs]⟩, by simp only [verifyHash, hs]⟩
    simp only [verifyHash, hs]
    exact ⟨fun _ => hnone, fun _ => trivial⟩
  | cons a rest =>
    obtain ⟨ha, hh, hst, hmax⟩ := selectLatestAnchored_cons db.rows h a rest hs
    refine ⟨?_, Or.inr ⟨a, ha, hh, hst, hmax, by simp only [verifyHash, hs]⟩,
      by simp only [verifyHash, hs]⟩
    simp only [verifyHash, hs]
    constructor
    · intro hf
      exact absurd hf (by decide)
    · intro hall
      exact absurd ⟨hh, hst⟩ (hall a ha)

/-- Sample check for C12 on the sample store (anchor 1 `FAILED` with digest `c1`, anchor 2
`ANCHORED` with digest `c2`): `c1` does not verify, `c2` verifies with anchor 2. -/
theorem verifyHash_sampleStore :
    (verifyHash sampleStore "c1").2
      = { verified := false, message := some "Hash not found in anchor history" } ∧
    (verifyHash sampleStore "c2").2 = {
      verified := true
      anchor_id := some 2
      anchored_at := some 21
      anchor_target := some "local-log"
      anchor_ref := some "local://log/2" } := by
  decide

/-- Witness for C12: in the sample store the digest `c1` belongs only to a `FAILED` anchor, so it
does not verify. -/
theorem verifyHash_latest_anchored_witness : (verifyHash sampleStore "c1").2.verified = false :=
  (verifyHash_latest_anchored sampleStore "c1").1.mpr (by decide)

/-! ## `publishToTarget` -/

theorem publishToLocalLog_eq (env : PublishEnv) (anchor : Anchor) :
    ∃ entry_hash : String, publishToLocalLog env anchor = .ok {
      success := true
      anchor_ref := .str ("local://log/" ++ toString anchor.id)
      proof := .obj [("type", .str "local-log"), ("entry_hash", .str entry_hash),
        ("logged_at", .str env.clock)] } := by
  simp only [publishToLocalLog, sha256, stableStringify_obj]
  exact ⟨_, rfl⟩

theorem publishToPublicLog_total (env : PublishEnv) (anchor : Anchor) (config : JSValue) :
    ∃ r, publishToPublicLog env anchor config = .ok r := by
  simp only [publishToPublicLog]
  split
  · exact ⟨_, rfl⟩
  · exact ⟨_, rfl⟩

/-- C13. For every anchor and target, `publishToTarget` returns a result and does not throw when
`target_type` is not `PUBLIC_LOG`: `NOTARY` gives `success: false` with
"Notary integration not yet implemented", `BLOCKCHAIN` gives `success: false` with
"Blockchain integration not yet implemented", and every other value `v` (such as
`CERTIFICATE_TRANSPARENCY`) gives `success: false` with "Unknown target type: " followed by `v`.
The local-log variant runs exactly when `target_type` is `PUBLIC_LOG` and `target_id` is
`local-log` (any other `PUBLIC_LOG` target goes to the public-log variant), and it returns
`success: true` with `anchor_ref` equal to `local://log/` followed by the anchor id. -/
theorem publishToTarget_dispatch (env : PublishEnv) (anchor : Anchor) (target : AnchorTarget) :
    (target.target_type = "NOTARY" → publishToTarget env anchor target
      = .ok { success := false, error := some "Notary integration not yet implemented" }) ∧
    (target.target_type = "BLOCKCHAIN" → publishToTarget env anchor target
      = .ok { success := false, error := some "Blockchain integration not yet implemented" }) ∧
    (target.target_type ≠ "PUBLIC_LOG" → target.target_type ≠ "NOTARY" →
      target.target_type ≠ "BLOCKCHAIN" → publishToTarget env anchor target
        = .ok { success := false, error := some ("Unknown target type: " ++ target.target_type) }) ∧
    (target.target_type = "CERTIFICATE_TRANSPARENCY" → publishToTarget env anchor target
      = .ok { success := false, error := some "Unknown target type: CERTIFICATE_TRANSPARENCY" }) ∧
    (target.target_type ≠ "PUBLIC_LOG" →
      ∃ e : String, publishToTarget env anchor target = .ok { success := false, error := some e }) ∧
    (target.target_type = "PUBLIC_LOG" → target.target_id = "local-log" →
      publishToTarget env anchor target = publishToLocalLog env anchor ∧
      ∃ entry_hash : String, publishToTarget env anchor target = .ok {
        success := true
        anchor_ref := .str ("local://log/" ++ toString anchor.id)
        proof := .obj [("type", .str "local-log"), ("entry_hash", .str entry_hash),
          ("logged_at", .str env.clock)] }) ∧
    (target.target_type = "PUBLIC_LOG" → target.target_id ≠ "local-log" →
      publishToTarget env anchor target = publishToPublicLog env anchor target.config) ∧
    (∃ r, publishToTarget env anchor target = .ok r) := by
  have hnotary : target.target_type = "NOTARY" → publishToTarget env anchor target
      = .ok { success := false, error := some "Notary integration not yet implemented" } := by
    intro h
    simp [publishToTarget, publishToNotary, h]
  have hchain : target.target_type = "BLOCKCHAIN" → publishToTarget env anchor target
      = .ok { success := false, error := some "Blockchain integration not yet implemented" } := by
    intro h
    simp [publishToTarget, publishToBlockchain, h]
  have hother : target.target_type ≠ "PUBLIC_LOG" → target.target_type ≠ "NOTARY" →
      target.target_type ≠ "BLOCKCHAIN" → publishToTarget env anchor target
        = .ok { success := false, error := some ("Unknown target type: " ++ target.target_type) } := by
    intro h1 h2 h3
    simp [publishToTarget, h1, h2, h3]
  have hlocal : target.target_type = "PUBLIC_LOG" → target.target_id = "local-log" →
      publishToTarget env anchor target = publishToLocalLog env anchor := by
    intro h1 h2
    simp [publishToTarget, h1, h2]
  have hpublic : target.target_type = "PUBLIC_LOG" → target.target_id ≠ "local-log" →
      publishToTarget env anchor target = publishToPublicLog env anchor target.config := by
    intro h1 h2
    simp [publishToTarget, h1, h2]
  refine ⟨hnotary, hchain, hother, ?_, ?_, ?_, hpublic, ?_⟩
  · intro h
    rw [hother (by rw [h]; decide) (by rw [h]; decide) (by rw [h]; decide), h]
    rfl
  · intro h1
    by_cases h2 : target.target_type = "NOTARY"
    · exact ⟨_, hnotary h2⟩
    · by_cases h3 : target.target_type = "BLOCKCHAIN"
      · exact ⟨_, hchain h3⟩
      · exact ⟨_, hother h1 h2 h3⟩
  · intro h1 h2
    refine ⟨hlocal h1 h2, ?_⟩
    rw [hlocal h1 h2]
    exact publishToLocalLog_eq env anchor
  · by_cases h1 : target.target_type = "PUBLIC_LOG"
    · by_cases h2 : target.target_id = "local-log"
      · rw [hlocal h1 h2]
        obtain ⟨e, he⟩ := publishToLocalLog_eq env anchor
        exact ⟨_, he⟩
      · rw [hpublic h1 h2]
        exact publishToPublicLog_total env anchor target.config
    · by_cases h2 : target.target_type = "NOTARY"
      · exact ⟨_, hnotary h2⟩
      · by_cases h3 : target.target_type = "BLOCKCHAIN"
        · exact ⟨_, hchain h3⟩
        · exact ⟨_, hother h1 h2 h3⟩

/-- Witness for C13: a `CERTIFICATE_TRANSPARENCY` target is an unknown type, and the reserved
`local-log` target yields `local://log/2` for anchor 2. -/
theorem publishToTarget_dispatch_witness :
    publishToTarget publishEnvDown anchoredAnchor ctTarget
      = .ok { success := false, error := some "Unknown target type: CERTIFICATE_TRANSPARENCY" } ∧
    ∃ entry_hash : String, publishToTarget publishEnvDown anchoredAnchor localLogTarget = .ok {
      success := true
      anchor_ref := .str "local://log/2"
      proof := .obj [("type", .str "local-log"), ("entry_hash", .str entry_hash),
        ("logged_at", .str "2024-01-03T00:00:00.000Z")] } :=
  ⟨(publishToTarget_dispatch publishEnvDown anchoredAnchor ctTarget).2.2.2.1 rfl,
    ((publishToTarget_dispatch publishEnvDown anchoredAnchor localLogTarget).2.2.2.2.2.1 rfl rfl).2⟩

/-! ## The default sort on arbitrary values -/

theorem sortCompare_of_defined (x y : JSValue) (hx : x.isUndefined = false)
    (hy : y.isUndefined = false) :
    sortCompare x y =
      if strLt (jsToString x) (jsToString y) then -1
      else if strLt (jsToString y) (jsToString x) then 1 else 0 := by
  cases x <;> cases y <;> first | rfl | (simp [JSValue.isUndefined] at hx hy)

theorem compare_le_zero (a b : String) :
    decide ((if strLt a b = true then (-1 : Int) else if strLt b a = true then 1 else 0) ≤ 0)
      = !strLt b a := by
  rw [Bool.eq_iff_iff]
  simp only [decide_eq_true_eq, Bool.not_eq_true']
  split
  · next h => simp [strLt_asymm h]
  · split
    · next h1 h2 => simp [h2]
    · next h1 h2 => simpa using h2

theorem sortLe_eq (x y : JSValue) :
    decide (sortCompare x y ≤ 0)
      = (y.isUndefined || (!x.isUndefined && !strLt (jsToString y) (jsToString x))) := by
  cases hy : y.isUndefined
  · cases hx : x.isUndefined
    · rw [sortCompare_of_defined x y hx hy, compare_le_zero]
      rfl
    · cases x <;> cases y <;> simp_all [JSValue.isUndefined, sortCompare]
  · cases x <;> cases y <;> simp_all [JSValue.isUndefined, sortCompare]

theorem sortLe_total (x y : JSValue) :
    decide (sortCompare x y ≤ 0) = true ∨ decide (sortCompare y x ≤ 0) = true := by
  rw [sortLe_eq, sortLe_eq]
  cases hx : x.isUndefined <;> cases hy : y.isUndefined <;> simp
  exact (strLe_total (jsToString x) (jsToString y)).imp (by simp) (by simp)

theorem sortLe_trans (x y z : JSValue) (h1 : decide (sortCompare x y ≤ 0) = true)
    (h2 : decide (sortCompare y z ≤ 0) = true) : decide (sortCompare x z ≤ 0) = true := by
  rw [sortLe_eq] at h1 h2 ⊢
  cases hx : x.isUndefined <;> cases hy : y.isUndefined <;> cases hz : z.isUndefined <;>
    simp_all
  have := strLe_trans (jsToString x) (jsToString y) (jsToString z) (by simp [h1]) (by simp [h2])
  simpa using this

theorem arraySort_perm (l : List JSValue) : (arraySort l).Perm l := sortBy_perm _ l

theorem arraySort_pairwise (l : List JSValue) :
    (arraySort l).Pairwise (fun a b => decide (sortCompare a b ≤ 0) = true) :=
  sortBy_pairwise _ sortLe_total sortLe_trans l

theorem isUndefined_of_not_nullish (x : JSValue) (h : x.isNullish = false) :
    x.isUndefined = false := by
  cases x <;> simp_all [JSValue.isNullish, JSValue.isUndefined]

theorem concat_joinParts (l : List JSValue) :
    (joinParts l).foldr (fun s acc => s ++ acc) ""
      = ((l.filter (fun x => !x.isNullish)).map jsToString).foldr (fun s acc => s ++ acc) "" := by
  induction l with
  | nil => rfl
  | cons x xs ih =>
    cases x <;>
      simp [joinParts, JSValue.isNullish, ih]

/-- The text `computeRootHash` hashes for a list of arbitrary values: the strings of the values
other than `null` and `undefined`, sorted and concatenated. -/
theorem arrayJoin_arraySort (l : List JSValue) :
    arrayJoin "" (arraySort l)
      = (sortStrings ((l.filter (fun x => !x.isNullish)).map jsToString)).foldr
          (fun s acc => s ++ acc) "" := by
  rw [arrayJoin, joinStrings_empty_sep, concat_joinParts]
  congr 1
  haveI : IsAntisymm String (fun a b => (!strLt b a) = true) := ⟨strLe_antisymm⟩
  apply @List.eq_of_perm_of_sorted String (fun a b => (!strLt b a) = true)
  · exact ((((arraySort_perm l).filter _).map _).trans (sortStrings_perm _).symm)
  · have hs : ((arraySort l).filter (fun x => !x.isNullish)).Pairwise
        (fun a b => decide (sortCompare a b ≤ 0) = true) :=
      (arraySort_pairwise l).sublist (List.filter_sublist _)
    rw [List.Sorted, List.pairwise_map]
    refine hs.imp_of_mem ?_
    intro a b ha hb hab
    simp only [List.mem_filter, Bool.not_eq_true'] at ha hb
    rw [sortLe_eq, isUndefined_of_not_nullish a ha.2, isUndefined_of_not_nullish b hb.2] at hab
    simpa using hab
  · exact sortBy_pairwise _ strLe_total strLe_trans _

theorem computeRootHash_values_perm (l₁ l₂ : List JSValue) (h : l₁.Perm l₂) :
    computeRootHash (some l₁) = computeRootHash (some l₂) := by
  simp only [computeRootHash, h.length_eq, arrayJoin_arraySort]
  rw [sortStrings_eq_of_perm ((h.filter _).map _)]

/-! ## The success path of the collectors -/

theorem mapM_ok_forall₂ {α β : Type} (f : α → Except String β) :
    ∀ (l : List α) (l' : List β), l.mapM f = .ok l' → List.Forall₂ (fun a b => f a = .ok b) l l'
  | [], l', h => by
    simp only [List.mapM_nil, pure, Except.pure, Except.ok.injEq] at h
    subst h
    exact List.Forall₂.nil
  | a :: as, l', h => by
    rw [List.mapM_cons] at h
    cases hfa : f a with
    | error e =>
      rw [hfa] at h
      simp [bind, Except.bind] at h
    | ok b =>
      cases hrest : as.mapM f with
      | error e =>
        rw [hfa, hrest] at h
        simp [bind, Except.bind] at h
      | ok bs =>
        rw [hfa, hrest] at h
        simp only [bind, Except.bind, pure, Except.pure, Except.ok.injEq] at h
        subst h
        exact List.Forall₂.cons hfa (mapM_ok_forall₂ f as bs hrest)

theorem forall₂_eq_map {α β : Type} (f : α → β) :
    ∀ (l : List α) (l' : List β), List.Forall₂ (fun a b => b = f a) l l' → l' = l.map f
  | _, _, List.Forall₂.nil => rfl
  | _, _, List.Forall₂.cons h t => by
    rw [List.map_cons, h, forall₂_eq_map f _ _ t]

theorem forall₂_map_eq {α β γ : Type} (f : α → γ) (g : β → γ) :
    ∀ (l : List α) (l' : List β), List.Forall₂ (fun a b => g b = f a) l l' → l'.map g = l.map f
  | _, _, List.Forall₂.nil => rfl
  | _, _, List.Forall₂.cons h t => by
    rw [List.map_cons, List.map_cons, h, forall₂_map_eq f g _ _ t]

theorem insertWith_perm {α : Type} (cmp : α → α → Except String Int) (a : α) :
    ∀ (l r : List α), insertWith cmp a l = .ok r → r.Perm (a :: l)
  | [], r, h => by
    simp only [insertWith, Except.ok.injEq] at h
    subst h
    exact List.Perm.refl _
  | b :: l, r, h => by
    simp only [insertWith] at h
    cases hc : cmp a b with
    | error e => rw [hc] at h; simp at h
    | ok c =>
      rw [hc] at h
      simp only at h
      split at h
      · simp only [Except.ok.injEq] at h
        subst h
        exact List.Perm.refl _
      · cases hi : insertWith cmp a l with
        | error e => rw [hi] at h; simp at h
        | ok r' =>
          rw [hi] at h
          simp only [Except.ok.injEq] at h
          subst h
          exact ((insertWith_perm cmp a l r' hi).cons b).trans (List.Perm.swap a b l)

theorem sortWith_perm {α : Type} (cmp : α → α → Except String Int) :
    ∀ (l r : List α), sortWith cmp l = .ok r → r.Perm l
  | [], r, h => by
    simp only [sortWith, Except.ok.injEq] at h
    subst h
    exact List.Perm.refl _
  | b :: l, r, h => by
    simp only [sortWith] at h
    cases hs : sortWith cmp l with
    | error e => rw [hs] at h; simp at h
    | ok s =>
      rw [hs] at h
      exact (insertWith_perm cmp b s r h).trans ((sortWith_perm cmp l s hs).cons b)

theorem getMember_ok (v : JSValue) (key : String) (w : JSValue) (h : getMember v key = .ok w) :
    w = optionalMember v key := by
  cases v <;> simp_all [getMember, optionalMember]

theorem projectHead_ok (h p : JSValue) (hp : projectHead h = .ok p) :
    optionalMember p "head_hash" = optionalMember h "head_event_hash" := by
  simp only [projectHead, bind, Except.bind] at hp
  cases hd : getMember h "document_id" with
  | error e => rw [hd] at hp; simp at hp
  | ok d =>
    cases hh : getMember h "head_event_hash" with
    | error e => rw [hd, hh] at hp; simp at hp
    | ok v =>
      rw [hd, hh] at hp
      simp only [pure, Except.pure, Except.ok.injEq] at hp
      subst hp
      rw [← getMember_ok h "head_event_hash" v hh]
      simp [optionalMember, getProp]

/-- On the success path of `getWcafHeadsSnapshot` the digest is `computeRootHash` of a
permutation of the `head_event_hash` values of the response. -/
theorem wcafTry_success (up : Upstream) (r : Response) (data v : JSValue) (heads : List JSValue)
    (s : SourceSnapshot) (h : up.chainHeads = .ok r) (hok : r.ok = true) (hj : r.json = .ok data)
    (hd : getMember data "heads" = .ok v) (hv : orElse v (.arr []) = .arr heads)
    (hs : wcafTry up = .ok s) :
    ∃ headHashes : List JSValue, headHashes.Perm (headEventHashes heads) ∧
      computeRootHash (some headHashes) = .ok s.hash ∧ s.count = heads.length := by
  simp only [wcafTry, h, bind, Except.bind, hok, hj, hd, hv, arrayMap, arrayLength,
    Bool.not_true, Bool.false_eq_true, if_false] at hs
  cases hp : heads.mapM projectHead with
  | error e => rw [hp] at hs; simp at hs
  | ok projected =>
    rw [hp] at hs
    simp only at hs
    cases hsort : sortWith (compareByKey up.localeCompare "document_id") projected with
    | error e => rw [hsort] at hs; simp at hs
    | ok sortedHeads =>
      rw [hsort] at hs
      simp only at hs
      cases hm : sortedHeads.mapM (fun h => getMember h "head_hash") with
      | error e => rw [hm] at hs; simp at hs
      | ok headHashes =>
        rw [hm] at hs
        simp only at hs
        cases hc : computeRootHash (some headHashes) with
        | error e => rw [hc] at hs; simp at hs
        | ok hash =>
          rw [hc] at hs
          simp only [pure, Except.pure, Except.ok.injEq] at hs
          subst hs
          refine ⟨headHashes, ?_, hc, rfl⟩
          have e1 : headHashes = sortedHeads.map (fun p => optionalMember p "head_hash") :=
            forall₂_eq_map _ _ _
              ((mapM_ok_forall₂ _ _ _ hm).imp (fun p w hw => getMember_ok p "head_hash" w hw))
          have e2 : projected.map (fun p => optionalMember p "head_hash")
              = heads.map (fun h => optionalMember h "head_event_hash") :=
            forall₂_map_eq _ _ _ _
              ((mapM_ok_forall₂ _ _ _ hp).imp (fun h p hp => projectHead_ok h p hp))
          rw [e1, headEventHashes, ← e2]
          exact (sortWith_perm _ _ _ hsort).map _

/-- C15. The chain-heads digest depends only on the multiset of head hashes: for two chain-heads
responses that are both collected successfully (status ok, body read, the `try` block completes)
and whose lists of `head_event_hash` values are permutations of each other,
`getWcafHeadsSnapshot` returns the same hash, whatever the `document_id` values are, whichever
document each hash belongs to, and whatever the host collation is: `computeRootHash` re-sorts the
hashes, so the sort by `document_id` has no effect on the digest. -/
theorem wcaf_hash_depends_on_head_hashes_only (up₁ up₂ : Upstream) (r₁ r₂ : Response)
    (data₁ data₂ v₁ v₂ : JSValue) (heads₁ heads₂ : List JSValue) (s₁ s₂ : SourceSnapshot)
    (h₁ : up₁.chainHeads = .ok r₁) (hok₁ : r₁.ok = true) (hj₁ : r₁.json = .ok data₁)
    (hd₁ : getMember data₁ "heads" = .ok v₁) (hv₁ : orElse v₁ (.arr []) = .arr heads₁)
    (hs₁ : wcafTry up₁ = .ok s₁)
    (h₂ : up₂.chainHeads = .ok r₂) (hok₂ : r₂.ok = true) (hj₂ : r₂.json = .ok data₂)
    (hd₂ : getMember data₂ "heads" = .ok v₂) (hv₂ : orElse v₂ (.arr []) = .arr heads₂)
    (hs₂ : wcafTry up₂ = .ok s₂)
    (hperm : (headEventHashes heads₁).Perm (headEventHashes heads₂)) :
    getWcafHeadsSnapshot up₁ = .ok s₁ ∧ getWcafHeadsSnapshot up₂ = .ok s₂ ∧
    s₁.hash = s₂.hash ∧
    computeRootHash (some (headEventHashes heads₁)) = .ok s₁.hash ∧
    computeRootHash (some (headEventHashes heads₂)) = .ok s₂.hash := by
  obtain ⟨hh₁, hp₁, hc₁, _⟩ := wcafTry_success up₁ r₁ data₁ v₁ heads₁ s₁ h₁ hok₁ hj₁ hd₁ hv₁ hs₁
  obtain ⟨hh₂, hp₂, hc₂, _⟩ := wcafTry_success up₂ r₂ data₂ v₂ heads₂ s₂ h₂ hok₂ hj₂ hd₂ hv₂ hs₂
  have e₁ : computeRootHash (some (headEventHashes heads₁)) = .ok s₁.hash := by
    rw [← computeRootHash_values_perm _ _ hp₁, hc₁]
  have e₂ : computeRootHash (some (headEventHashes heads₂)) = .ok s₂.hash := by
    rw [← computeRootHash_values_perm _ _ hp₂, hc₂]
  refine ⟨by simp only [getWcafHeadsSnapshot, hs₁], by simp only [getWcafHeadsSnapshot, hs₂],
    ?_, e₁, e₂⟩
  rw [computeRootHash_values_perm _ _ hperm, e₂] at e₁
  exact (Except.ok.inj e₁).symm

/-- Witness for C15: the two sample bodies hold the head hashes `aa` and `bb` under different
documents and in different order, and give the same digest. -/
theorem wcaf_hash_depends_on_head_hashes_only_witness :
    ∃ s₁ s₂, getWcafHeadsSnapshot (upstreamHeads headsBodyA) = .ok s₁ ∧
      getWcafHeadsSnapshot (upstreamHeads headsBodyB) = .ok s₂ ∧ s₁.hash = s₂.hash := by
  have hA : wcafTry (upstreamHeads headsBodyA) = .ok {
      hash := sha256Hex "aabb"
      count := 2
      snapshot_at := some "2024-01-04T00:00:00.000Z" } := rfl
  have hB : wcafTry (upstreamHeads headsBodyB) = .ok {
      hash := sha256Hex "aabb"
      count := 2
      snapshot_at := some "2024-01-04T00:00:00.000Z" } := rfl
  obtain ⟨g₁, g₂, g₃, _, _⟩ := wcaf_hash_depends_on_head_hashes_only
    (upstreamHeads headsBodyA) (upstreamHeads headsBodyB) _ _ headsBodyA headsBodyB _ _ _ _ _ _
    rfl rfl rfl rfl rfl hA rfl rfl rfl rfl rfl hB
    (@List.perm_append_comm _ [JSValue.str "aa"] [JSValue.str "bb"])
  exact ⟨_, _, g₁, g₂, g₃⟩

/-! ## The registry digest and the host collation -/

theorem eq_ok_of_toOption {α : Type} {e : Except String α} {a : α} (h : e.toOption = some a) :
    e = .ok a := by
  cases e with
  | error msg => simp [Except.toOption] at h
  | ok b =>
    simp only [Except.toOption, Option.some.injEq] at h
    rw [h]

/-- C14 (failing input). On a host whose collation treats canonically equivalent strings as equal,
a registry listing two issuers whose ids are the distinct strings U+00E9 and `e` U+0301 gives one
digest when listed in one order and another digest when listed in the other order: the comparator
returns 0 for the two ids, so the stable sort keeps the listing order. -/
theorem registry_hash_depends_on_listing_order :
    issuerIdComposed ≠ issuerIdDecomposed ∧
    canonicalCompare issuerIdComposed issuerIdDecomposed = 0 ∧
    [issuerDecomposed, issuerComposed].Perm [issuerComposed, issuerDecomposed] ∧
    getIssuerRegistrySnapshot (upstreamRegistry [issuerComposed, issuerDecomposed]) = .ok {
      hash := "1a73b195fe7d0044e224ca6d03f15ec41eaf999b668e8a026e68a2c1d121674a"
      count := 2
      snapshot_at := some "2024-01-05T00:00:00.000Z" } ∧
    getIssuerRegistrySnapshot (upstreamRegistry [issuerDecomposed, issuerComposed]) = .ok {
      hash := "d632805d3e487d11f7b9f69a1b8c775a9c50c0584e5e53669088f934b64da4eb"
      count := 2
      snapshot_at := some "2024-01-05T00:00:00.000Z" } ∧
    stableStringify (.arr [issuerComposed, issuerDecomposed])
      ≠ stableStringify (.arr [issuerDecomposed, issuerComposed]) := by
  refine ⟨by decide, by decide, List.Perm.swap _ _ _, ?_, ?_, by decide⟩
  · exact eq_ok_of_toOption (by decide!)
  · exact eq_ok_of_toOption (by decide!)

/-! ## Sorting with a comparator that does not throw -/

theorem insertWith_eq_insertSorted {α : Type} (cmp : α → α → Except String Int)
    (c : α → α → Int) (a : α) :
    ∀ (l : List α), (∀ x ∈ l, cmp a x = .ok (c a x)) →
      insertWith cmp a l = .ok (insertSorted (fun a b => decide (c a b ≤ 0)) a l)
  | [], _ => rfl
  | b :: l, h => by
    have hb := h b (List.mem_cons_self _ _)
    have ih := insertWith_eq_insertSorted cmp c a l (fun x hx => h x (List.mem_cons_of_mem _ hx))
    simp only [insertWith, insertSorted, hb, ih, decide_eq_true_eq]
    split <;> rfl

theorem sortWith_eq_sortBy {α : Type} (cmp : α → α → Except String Int) (c : α → α → Int) :
    ∀ (l : List α), (∀ x ∈ l, ∀ y ∈ l, cmp x y = .ok (c x y)) →
      sortWith cmp l = .ok (sortBy (fun a b => decide (c a b ≤ 0)) l)
  | [], _ => rfl
  | b :: l, h => by
    have ih := sortWith_eq_sortBy cmp c l
      (fun x hx y hy => h x (List.mem_cons_of_mem _ hx) y (List.mem_cons_of_mem _ hy))
    simp only [sortWith, sortBy, ih]
    apply insertWith_eq_insertSorted
    intro x hx
    exact h b (List.mem_cons_self _ _) x
      (List.mem_cons_of_mem _ ((sortBy_perm _ l).mem_iff.mp hx))

theorem mapM_eq_ok_map {α β : Type} (f : α → Except String β) (g : α → β) :
    ∀ (l : List α), (∀ x ∈ l, f x = .ok (g x)) → l.mapM f = .ok (l.map g)
  | [], _ => rfl
  | a :: l, h => by
    rw [List.mapM_cons, h a (List.mem_cons_self _ _),
      mapM_eq_ok_map f g l (fun x hx => h x (List.mem_cons_of_mem _ hx))]
    rfl

theorem compareByKey_eq (lc : String → String → Int) (key : String) (a b : JSValue)
    (ha : ∃ kvs s, a = .obj kvs ∧ getProp kvs key = .str s)
    (hb : ∃ kvs s, b = .obj kvs ∧ getProp kvs key = .str s) :
    compareByKey lc key a b = .ok (lc (stringKey key a) (stringKey key b)) := by
  obtain ⟨ka, sa, rfl, hsa⟩ := ha
  obtain ⟨kb, sb, rfl, hsb⟩ := hb
  simp only [compareByKey, getMember, hsa, hsb, stringKey, optionalMember, jsToString]

theorem eq_of_perm_of_pairwise_on {α : Type} (r : α → α → Prop) :
    ∀ (l₁ l₂ : List α), l₁.Perm l₂ → l₁.Pairwise r → l₂.Pairwise r →
      (∀ a ∈ l₁, ∀ b ∈ l₁, r a b → r b a → a = b) → l₁ = l₂
  | [], l₂, hp, _, _, _ => (List.nil_perm.mp hp).symm
  | a :: t, [], hp, _, _, _ => absurd hp (List.not_perm_nil_cons _ _ ∘ List.Perm.symm)
  | a :: t, b :: t₂, hp, hs₁, hs₂, hanti => by
    have hab : a = b := by
      by_contra hne
      have ha : a ∈ t₂ := by
        have : a ∈ b :: t₂ := hp.mem_iff.mp (List.mem_cons_self _ _)
        rcases List.mem_cons.mp this with h | h
        · exact absurd h hne
        · exact h
      have hb : b ∈ t := by
        have : b ∈ a :: t := hp.mem_iff.mpr (List.mem_cons_self _ _)
        rcases List.mem_cons.mp this with h | h
        · exact absurd h.symm hne
        · exact h
      exact hne (hanti a (List.mem_cons_self _ _) b (List.mem_cons_of_mem _ hb)
        ((List.pairwise_cons.mp hs₁).1 b hb) ((List.pairwise_cons.mp hs₂).1 a ha))
    subst hab
    rw [eq_of_perm_of_pairwise_on r t t₂ hp.cons_inv (List.pairwise_cons.mp hs₁).2
      (List.pairwise_cons.mp hs₂).2
      (fun x hx y hy => hanti x (List.mem_cons_of_mem _ hx) y (List.mem_cons_of_mem _ hy))]

/-! ## Well-formed upstream responses -/

theorem projectIssuer_obj (kvs : List (String × JSValue)) :
    projectIssuer (.obj kvs) = .ok (issuerRecord (.obj kvs)) := rfl

theorem projectHead_obj (kvs : List (String × JSValue)) :
    projectHead (.obj kvs) = .ok (headRecord (.obj kvs)) := rfl

theorem stringKey_issuerRecord (x : JSValue) :
    stringKey "issuer_id" (issuerRecord x) = stringKey "issuer_id" x := by
  simp [stringKey, issuerRecord, optionalMember, getProp]

theorem hasStringKey_issuerRecords (issuers : List JSValue)
    (hwf : HasStringKey "issuer_id" issuers) :
    HasStringKey "issuer_id" (issuers.map issuerRecord) := by
  intro p hp
  obtain ⟨x, hx, rfl⟩ := List.mem_map.mp hp
  obtain ⟨kvs, s, rfl, hs⟩ := hwf x hx
  exact ⟨_, s, rfl, by simp [getProp, optionalMember, hs]⟩

theorem hasStringKey_headRecords (heads : List JSValue)
    (hwf : HasStringKey "document_id" heads) :
    HasStringKey "document_id" (heads.map headRecord) := by
  intro p hp
  obtain ⟨x, hx, rfl⟩ := List.mem_map.mp hp
  obtain ⟨kvs, s, rfl, hs⟩ := hwf x hx
  exact ⟨_, s, rfl, by simp [getProp, optionalMember, hs]⟩

theorem sortWith_compareByKey (lc : String → String → Int) (key : String) (l : List JSValue)
    (hwf : HasStringKey key l) :
    sortWith (compareByKey lc key) l
      = .ok (sortBy (fun a b => decide (lc (stringKey key a) (stringKey key b) ≤ 0)) l) :=
  sortWith_eq_sortBy _ (fun a b => lc (stringKey key a) (stringKey key b)) l
    (fun x hx y hy => compareByKey_eq lc key x y (hwf x hx) (hwf y hy))

theorem computeRootHash_total (hashes : Option (List JSValue)) :
    ∃ x, computeRootHash hashes = .ok x := by
  cases hashes with
  | none => exact ⟨_, rfl⟩
  | some hs =>
    simp only [computeRootHash]
    split
    · exact ⟨_, rfl⟩
    · exact ⟨_, rfl⟩

theorem getIssuerRegistrySnapshot_of_ok (up : Upstream) (s : SourceSnapshot)
    (h : registryTry up = .ok s) : getIssuerRegistrySnapshot up = .ok s := by
  simp only [getIssuerRegistrySnapshot, h]

/-- The registry digest of a well-formed listing (every issuer an object with a string
`issuer_id`): the SHA-256 of the canonical text of the projected records in the stable order of
the host collation, with the number of issuers as count. -/
theorem registryTry_well_formed (up : Upstream) (r : Response) (data v : JSValue)
    (issuers : List JSValue) (h : up.directory = .ok r) (hok : r.ok = true)
    (hj : r.json = .ok data) (hd : getMember data "issuers" = .ok v)
    (hv : orElse v (.arr []) = .arr issuers) (hwf : HasStringKey "issuer_id" issuers) :
    registryTry up = .ok {
      hash := sha256Hex ((stableStringify (.arr (sortBy
        (fun a b => decide
          (up.localeCompare (stringKey "issuer_id" a) (stringKey "issuer_id" b) ≤ 0))
        (issuers.map issuerRecord)))).getD "")
      count := issuers.length
      snapshot_at := some up.registryClock } := by
  have hmap : issuers.mapM projectIssuer = .ok (issuers.map issuerRecord) := by
    apply mapM_eq_ok_map
    intro x hx
    obtain ⟨kvs, s, rfl, _⟩ := hwf x hx
    rfl
  simp only [registryTry, h, bind, Except.bind, hok, hj, hd, hv, arrayMap, arrayLength, hmap,
    sortWith_compareByKey _ _ _ (hasStringKey_issuerRecords issuers hwf),
    Bool.not_true, Bool.false_eq_true, if_false]
  rfl

/-- A well-formed chain-heads response (every head an object with a string `document_id`) is
collected without exception. -/
theorem wcafTry_well_formed (up : Upstream) (r : Response) (data v : JSValue)
    (heads : List JSValue) (h : up.chainHeads = .ok r) (hok : r.ok = true)
    (hj : r.json = .ok data) (hd : getMember data "heads" = .ok v)
    (hv : orElse v (.arr []) = .arr heads) (hwf : HasStringKey "document_id" heads) :
    ∃ s, wcafTry up = .ok s := by
  have hmap : heads.mapM projectHead = .ok (heads.map headRecord) := by
    apply mapM_eq_ok_map
    intro x hx
    obtain ⟨kvs, s, rfl, _⟩ := hwf x hx
    rfl
  have hrec := hasStringKey_headRecords heads hwf
  have hget : (sortBy (fun a b => decide
        (up.localeCompare (stringKey "document_id" a) (stringKey "document_id" b) ≤ 0))
        (heads.map headRecord)).mapM (fun h => getMember h "head_hash")
      = .ok ((sortBy (fun a b => decide
        (up.localeCompare (stringKey "document_id" a) (stringKey "document_id" b) ≤ 0))
        (heads.map headRecord)).map (fun h => optionalMember h "head_hash")) := by
    apply mapM_eq_ok_map
    intro p hp
    obtain ⟨kvs, s, rfl, _⟩ := hrec p ((sortBy_perm _ _).mem_iff.mp hp)
    rfl
  obtain ⟨x, hx⟩ := computeRootHash_total (some ((sortBy (fun a b => decide
        (up.localeCompare (stringKey "document_id" a) (stringKey "document_id" b) ≤ 0))
        (heads.map headRecord)).map (fun h => optionalMember h "head_hash")))
  simp only [wcafTry, h, bind, Except.bind, hok, hj, hd, hv, arrayMap, arrayLength, hmap,
    sortWith_compareByKey _ _ _ hrec, hget, hx,
    Bool.not_true, Bool.false_eq_true, if_false]
  exact ⟨_, rfl⟩

/-- The registry digest does not depend on the listing order when the host collation separates
the listed ids: for well-formed listings that are permutations of each other, with pairwise
distinct ids, on hosts with the same collation, a collation that is total and transitive and
under which no two listed ids compare equal, `getIssuerRegistrySnapshot` returns the same hash
and the number of issuers as count. -/
theorem registry_hash_order_invariant (up up' : Upstream) (r r' : Response)
    (data data' v v' : JSValue) (issuers issuers' : List JSValue)
    (h : up.directory = .ok r) (hok : r.ok = true) (hj : r.json = .ok data)
    (hd : getMember data "issuers" = .ok v) (hv : orElse v (.arr []) = .arr issuers)
    (h' : up'.directory = .ok r') (hok' : r'.ok = true) (hj' : r'.json = .ok data')
    (hd' : getMember data' "issuers" = .ok v') (hv' : orElse v' (.arr []) = .arr issuers')
    (hlc : up'.localeCompare = up.localeCompare)
    (hwf : HasStringKey "issuer_id" issuers) (hperm : issuers.Perm issuers')
    (hnodup : (issuers.map (stringKey "issuer_id")).Nodup)
    (htotal : ∀ a b, up.localeCompare a b ≤ 0 ∨ up.localeCompare b a ≤ 0)
    (htrans : ∀ a b c, up.localeCompare a b ≤ 0 → up.localeCompare b c ≤ 0 →
      up.localeCompare a c ≤ 0)
    (hsep : ∀ a ∈ issuers.map (stringKey "issuer_id"),
      ∀ b ∈ issuers.map (stringKey "issuer_id"),
      up.localeCompare a b ≤ 0 → up.localeCompare b a ≤ 0 → a = b) :
    ∃ s s', getIssuerRegistrySnapshot up = .ok s ∧ getIssuerRegistrySnapshot up' = .ok s' ∧
      s.hash = s'.hash ∧ s.count = issuers.length ∧ s'.count = issuers.length := by
  have hwf' : HasStringKey "issuer_id" issuers' := fun x hx => hwf x (hperm.mem_iff.mpr hx)
  have e := registryTry_well_formed up r data v issuers h hok hj hd hv hwf
  have e' := registryTry_well_formed up' r' data' v' issuers' h' hok' hj' hd' hv' hwf'
  rw [hlc] at e'
  have hsort : sortBy (fun a b => decide
        (up.localeCompare (stringKey "issuer_id" a) (stringKey "issuer_id" b) ≤ 0))
        (issuers.map issuerRecord)
      = sortBy (fun a b => decide
        (up.localeCompare (stringKey "issuer_id" a) (stringKey "issuer_id" b) ≤ 0))
        (issuers'.map issuerRecord) := by
    apply eq_of_perm_of_pairwise_on (fun a b => decide
        (up.localeCompare (stringKey "issuer_id" a) (stringKey "issuer_id" b) ≤ 0) = true)
    · exact ((sortBy_perm _ _).trans (hperm.map _)).trans (sortBy_perm _ _).symm
    · exact sortBy_pairwise _ (fun a b => by simpa using htotal _ _)
        (fun a b c h1 h2 => by simpa using htrans _ _ _ (by simpa using h1) (by simpa using h2)) _
    · exact sortBy_pairwise _ (fun a b => by simpa using htotal _ _)
        (fun a b c h1 h2 => by simpa using htrans _ _ _ (by simpa using h1) (by simpa using h2)) _
    · intro p hp q hq hpq hqp
      obtain ⟨x, hx, rfl⟩ := List.mem_map.mp ((sortBy_perm _ _).mem_iff.mp hp)
      obtain ⟨y, hy, rfl⟩ := List.mem_map.mp ((sortBy_perm _ _).mem_iff.mp hq)
      simp only [stringKey_issuerRecord, decide_eq_true_eq] at hpq hqp
      have hk := hsep _ (List.mem_map_of_mem _ hx) _ (List.mem_map_of_mem _ hy) hpq hqp
      rw [List.inj_on_of_nodup_map hnodup hx hy hk]
  refine ⟨_, _, getIssuerRegistrySnapshot_of_ok up _ e, getIssuerRegistrySnapshot_of_ok up' _ e',
    ?_, rfl, ?_⟩
  · simp only [hsort]
  · exact hperm.length_eq.symm

end TransparencyAnchor
